import Mathlib

/-!
Verification of the godot-sync synchronization engine (`src/SyncService.ts`).

The development shallowly embeds the `SyncService` class: filesystem paths are
lists of segments of an absolute, resolved POSIX path (`path.sep = "/"`,
`process.platform ≠ "win32"`), the filesystem is an explicit finite map from
paths to files plus a set of existing directories, and every `fs/promises`
primitive is an explicit step on that state that also records the attempted
action in a trace.  Transient OS failures (`EBUSY`, locked files, injected
faults used by the retry logic) are modelled by an injection oracle
`inj : Nat → Option JsErr` indexed by the running count of primitive calls:
when `inj` yields an error for the current call index the primitive fails with
that error instead of consulting the filesystem.  JavaScript errors are a
record of an optional `code` property and a message, mirroring
`getErrorCode`.
-/

namespace GodotSync

/-- The `eventType` of a `SyncOperation` (`'add' | 'change' | 'unlink'`). -/
inductive EventType
  | add
  | change
  | unlink
deriving DecidableEq, Repr

/-- A JavaScript error as observed by `SyncService.getErrorCode`: an optional
`code` property (string codes such as `"ENOENT"`; other shapes of `code`
never match the string comparisons in the source) and a `message`. -/
structure JsErr where
  code : Option String
  msg : String
deriving DecidableEq, Repr

/-- `getErrorCode` of the source: extracts the `code` property when present. -/
def getErrorCode (e : JsErr) : Option String := e.code

/-- A file: modification time (`Stats.mtimeMs`) and content. -/
structure SFile where
  mtimeMs : Int
  content : String
deriving DecidableEq, Repr

/-- A path segment of an absolute resolved path. -/
abbrev Seg := String

/-- An absolute resolved POSIX path, as its list of segments
(`[]` is the filesystem root `/`). -/
abbrev FsPath := List Seg

/-- The filesystem: files keyed by path, plus the set of existing
directories. -/
structure FsState where
  files : List (FsPath × SFile)
  dirs : List FsPath
deriving DecidableEq, Repr

/-- Look a file up. -/
def findFile (fs : FsState) (p : FsPath) : Option SFile :=
  (fs.files.find? (fun q => q.1 == p)).map (fun q => q.2)

/-- Create or overwrite a file. -/
def setFile (fs : FsState) (p : FsPath) (f : SFile) : FsState :=
  { fs with files := (fs.files.filter (fun q => !(q.1 == p))) ++ [(p, f)] }

/-- Remove a file. -/
def removeFile (fs : FsState) (p : FsPath) : FsState :=
  { fs with files := fs.files.filter (fun q => !(q.1 == p)) }

/-- All the ancestors of a path together with the path itself, as created by
`fs.mkdir(p, { recursive: true })`. -/
def dirPrefixes (p : FsPath) : List FsPath :=
  (List.range (p.length + 1)).map (fun i => p.take i)

/-- Recursive directory creation: adds every missing ancestor directory and
tolerates directories that already exist. -/
def addDirs (fs : FsState) (p : FsPath) : FsState :=
  { fs with dirs := fs.dirs ++ (dirPrefixes p).filter (fun d => !(fs.dirs.contains d)) }

/-- The filesystem primitives invoked by `SyncService`. -/
inductive FsAction
  | mkdir (p : FsPath)
  | stat (p : FsPath)
  | copy (src dst : FsPath)
  | unlink (p : FsPath)
  | rename (src dst : FsPath)
deriving DecidableEq, Repr

/-- Result of a successful filesystem primitive. -/
inductive FsRet
  | unit
  | statR (f : SFile)
  | statDir
deriving DecidableEq, Repr

/-- The observable effect state threaded through the engine: the filesystem,
the current wall-clock stamp used for mtimes of written files, the running
count of primitive calls (the index the fault-injection oracle is consulted
at), the log-line stream, the stream of user-visible notifications
(`vscode.window.showErrorMessage`), the trace of attempted filesystem
actions, and the backoff sleeps performed by `withRetry`. -/
structure Eff where
  fs : FsState
  now : Int
  calls : Nat
  log : List String
  notifs : List String
  trace : List FsAction
  delays : List Nat
deriving DecidableEq, Repr

/-- An `ENOENT` error as produced by the OS for a missing file. -/
def enoent (op : String) : JsErr := { code := some "ENOENT", msg := "ENOENT: " ++ op }

/-- Fault-free semantics of the filesystem primitives.  `copyFile` stamps the
destination with the current time; `rename` preserves the file. -/
def fsSem (a : FsAction) (e : Eff) : Except JsErr FsRet × Eff :=
  match a with
  | .mkdir p => (.ok .unit, { e with fs := addDirs e.fs p })
  | .stat p =>
      match findFile e.fs p with
      | some f => (.ok (.statR f), e)
      | none =>
          if e.fs.dirs.contains p then (.ok .statDir, e) else (.error (enoent "stat"), e)
  | .copy src dst =>
      match findFile e.fs src with
      | some f =>
          (.ok .unit, { e with fs := setFile e.fs dst { mtimeMs := e.now, content := f.content } })
      | none => (.error (enoent "copyFile"), e)
  | .unlink p =>
      match findFile e.fs p with
      | some _ => (.ok .unit, { e with fs := removeFile e.fs p })
      | none => (.error (enoent "unlink"), e)
  | .rename src dst =>
      match findFile e.fs src with
      | some f => (.ok .unit, { e with fs := setFile (removeFile e.fs src) dst f })
      | none => (.error (enoent "rename"), e)

/-- One awaited filesystem call: records the attempted action, bumps the call
counter, and either fails with the injected fault for this call index or runs
the fault-free semantics. -/
def prim (inj : Nat → Option JsErr) (a : FsAction) (e : Eff) : Except JsErr FsRet × Eff :=
  let idx := e.calls
  let e1 : Eff := { e with calls := idx + 1, trace := e.trace ++ [a] }
  match inj idx with
  | some err => (.error err, e1)
  | none => fsSem a e1

/-- The transient error classifications retried by `withRetry`
(`['EBUSY', 'EPERM', 'ETXTBSY', 'EACCES']`). -/
def transientCodes : List String := ["EBUSY", "EPERM", "ETXTBSY", "EACCES"]

/-- Whether an error is in the transient set, exactly the source's
`['EBUSY', 'EPERM', 'ETXTBSY', 'EACCES'].includes(String(code))` (a missing
code stringifies to `"undefined"`, which is not in the set). -/
def isTransient (e : JsErr) : Bool :=
  match getErrorCode e with
  | some c => transientCodes.contains c
  | none => false

/-- The error thrown when `withRetry` gives up:
`new Error(opName + " failed after retries: " + lastMsg)`.  Being a fresh
`Error`, it has no `code` property. -/
def wrapErr (opName : String) (e : JsErr) : JsErr :=
  { code := none, msg := opName ++ " failed after retries: " ++ e.msg }

/-- The loop of `SyncService.withRetry`, compiled structurally:
`remaining = retries + 1 - attempt` counts the iterations the
`while (attempt <= retries)` loop still has; `lastErr` is the error of the
previous failed iteration.  On a transient failure it sleeps
`baseDelayMs * 3 ^ attempt` and retries; on any other failure, or on
exhaustion, it throws the wrapping error.  Generic in the state `σ` that the
awaited action `fn` acts on, with `sleep` the backoff suspension. -/
def retryGo {σ α : Type} (opName : String) (fn : σ → Except JsErr α × σ)
    (sleep : Nat → σ → σ) (base : Nat) :
    Nat → Nat → JsErr → σ → Except JsErr α × σ
  | 0, _, lastErr, s => (.error (wrapErr opName lastErr), s)
  | remaining + 1, attempt, _, s =>
      match fn s with
      | (.ok v, s1) => (.ok v, s1)
      | (.error err, s1) =>
          if isTransient err then
            retryGo opName fn sleep base remaining (attempt + 1) err (sleep (base * 3 ^ attempt) s1)
          else
            (.error (wrapErr opName err), s1)

/-- `SyncService.withRetry(opName, fn, retries, baseDelayMs)`; the source's
defaults are `retries = 3`, `baseDelayMs = 50`. -/
def withRetry {σ α : Type} (opName : String) (fn : σ → Except JsErr α × σ)
    (sleep : Nat → σ → σ) (retries : Nat) (baseDelayMs : Nat) (s : σ) :
    Except JsErr α × σ :=
  retryGo opName fn sleep baseDelayMs (retries + 1) 0 { code := none, msg := "undefined" } s

/-- The backoff sleep on `Eff`: records the delay. -/
def sleepEff (d : Nat) (e : Eff) : Eff := { e with delays := e.delays ++ [d] }

/-- Forget the `FsRet` payload of a primitive (the source ignores the
resolution value of `copyFile`, `unlink` and `rename`). -/
def discardRet {σ : Type} (r : Except JsErr FsRet × σ) : Except JsErr Unit × σ :=
  match r with
  | (.ok _, s) => (.ok (), s)
  | (.error e, s) => (.error e, s)

/-- The `removeExistingTarget` closure:
`try { await fs.unlink(dst); } catch (e) { if (code !== 'ENOENT') throw e; }`. -/
def unlinkTolerant (inj : Nat → Option JsErr) (p : FsPath) (e : Eff) :
    Except JsErr Unit × Eff :=
  match prim inj (.unlink p) e with
  | (.ok _, e1) => (.ok (), e1)
  | (.error err, e1) =>
      if getErrorCode err == some "ENOENT" then (.ok (), e1) else (.error err, e1)

/-- The temporary sibling
`dst + ".__godotsync_tmp_" + pid + "_" + random`: the collision-resistant
suffix (process id and randomness) is abstracted as the parameter `sfx`,
appended to the last path segment. -/
def tmpName (dst : FsPath) (sfx : String) : FsPath :=
  dst.dropLast ++ [dst.getLastD "" ++ ".__godotsync_tmp_" ++ sfx]

/-- `SyncService.copyFileAtomicWithRetry(src, dst)`: copy to the temporary
sibling with retry; best-effort remove a pre-existing destination (result
swallowed by `.catch`); rename the temporary onto the destination with retry
(a failure here propagates to the caller); finally, on the success path only,
`try { await fs.unlink(tmp); } catch { /* ignore */ }`. -/
def copyFileAtomicWithRetry (inj : Nat → Option JsErr) (sfx : String)
    (src dst : FsPath) (e : Eff) : Except JsErr Unit × Eff :=
  match withRetry "copyFile(tmp)"
      (fun e0 => discardRet (prim inj (.copy src (tmpName dst sfx)) e0)) sleepEff 3 50 e with
  | (.error err, e1) => (.error err, e1)
  | (.ok _, e1) =>
      match withRetry "rename(tmp->dst)"
          (fun e0 => discardRet (prim inj (.rename (tmpName dst sfx) dst) e0)) sleepEff 3 50
          ((withRetry "removeExistingTarget" (fun e0 => unlinkTolerant inj dst e0)
            sleepEff 2 30 e1).2) with
      | (.error err, e3) => (.error err, e3)
      | (.ok _, e3) => (.ok (), (prim inj (.unlink (tmpName dst sfx)) e3).2)

/-- `SyncService.unlinkWithRetry(p)`. -/
def unlinkWithRetry (inj : Nat → Option JsErr) (p : FsPath) (e : Eff) :
    Except JsErr Unit × Eff :=
  withRetry "unlink" (fun e0 => discardRet (prim inj (.unlink p) e0)) sleepEff 3 50 e

/-! ### Path arithmetic

`path.resolve`, `path.relative`, `path.join`, `path.dirname` and
`path.extname` on POSIX, over the segment representation.  The string-level
operations of the source (`===`, `startsWith(root + path.sep)`) are modelled
on the rendered character list of a path, exactly as JavaScript applies them
to the rendered string. -/

/-- The characters of the segments of a non-root path: `/s1/s2/.../sn`. -/
def segsChars : List Seg → List Char
  | [] => []
  | s :: rest => '/' :: s.toList ++ segsChars rest

/-- The rendered absolute path, as characters (`[]` renders as `/`). -/
def renderP (p : FsPath) : List Char :=
  match p with
  | [] => ['/']
  | _ => segsChars p

/-- The rendered absolute path, as a string. -/
def renderS (p : FsPath) : String := String.mk (renderP p)

/-- A relative path as rendered by `path.relative` / interpolated into log
messages: segments joined by `/` with no leading separator. -/
def renderRel (p : List String) : String := String.intercalate "/" p

/-- Length of the longest common prefix of two segment lists. -/
def commonPrefixLen : List Seg → List Seg → Nat
  | a :: as, b :: bs => if a = b then commonPrefixLen as bs + 1 else 0
  | _, _ => 0

/-- `path.relative(fromP, toP)` on resolved absolute paths: drop the common
prefix, then one `..` per remaining segment of `fromP` followed by the
remaining segments of `toP`. -/
def relSegs (fromP toP : FsPath) : List String :=
  let c := commonPrefixLen fromP toP
  List.replicate (fromP.length - c) ".." ++ toP.drop c

/-- Normalization of an absolute segment list as performed by
`path.join` / `path.resolve`: `..` pops one segment (clamping at the root,
`path.resolve('/..') = '/'`), `.` disappears. -/
def resolveSegs (segs : List String) : FsPath :=
  segs.foldl (fun acc s => if s = ".." then acc.dropLast else if s = "." then acc else acc ++ [s]) []

/-- A well-formed segment of a resolved path: non-empty, not a dot segment,
no separator inside. -/
def WfSeg (s : Seg) : Prop :=
  s ≠ "" ∧ s ≠ "." ∧ s ≠ ".." ∧ '/' ∉ s.toList

/-- Every segment well-formed. -/
def WfPath (p : FsPath) : Prop := ∀ s ∈ p, WfSeg s

instance : DecidablePred WfSeg := fun s => by
  unfold WfSeg; infer_instance

instance (p : FsPath) : Decidable (WfPath p) := by
  unfold WfPath; infer_instance

/-- The containment check of `handleFileSync`, lines 226–228 of the source:
`resolvedTargetPath === resolvedTargetRoot ||
 resolvedTargetPath.startsWith(resolvedTargetRoot + path.sep)`,
on rendered paths. -/
def isInsideCheck (targetRoot targetPath : FsPath) : Bool :=
  (renderP targetPath == renderP targetRoot) ||
    List.isPrefixOf (renderP targetRoot ++ ['/']) (renderP targetPath)

/-- Index of the last `'.'` of a character list, if any. -/
def lastDotIdx (cs : List Char) : Option Nat :=
  (List.range cs.length).foldl
    (fun acc i => if cs.get? i = some '.' then some i else acc) none

/-- `path.extname` on a basename: the substring from the last dot on, empty
when there is no dot or the only dot starts the name (dotfiles). -/
def extname (s : String) : String :=
  match lastDotIdx s.toList with
  | none => ""
  | some 0 => ""
  | some i => String.mk (s.toList.drop i)

/-- `path.basename` of a segment path (the root renders as `/`). -/
def basename (p : FsPath) : String := p.getLastD "/"

/-- ASCII lower-casing of one character (`String.prototype.toLowerCase` on
the ASCII range, the only range file extensions use). -/
def lowerChar (c : Char) : Char :=
  if 'A' ≤ c ∧ c ≤ 'Z' then Char.ofNat (c.toNat + 32) else c

/-- `toLowerCase()` on a string, character-wise. -/
def toLowerStr (s : String) : String := String.mk (s.toList.map lowerChar)

/-- `path.extname(filePath).toLowerCase()` of the source. -/
def fileExtOf (filePath : FsPath) : String := toLowerStr (extname (basename filePath))

/-- The eligibility gate of `handleFileSync`: the lowercase extension is in
the configured set, and `.import` files additionally require
`syncImportFiles`. -/
def eligibleExt (extensions : List String) (syncImportFiles : Bool) (filePath : FsPath) : Bool :=
  extensions.contains (fileExtOf filePath) &&
    !(fileExtOf filePath == ".import" && !syncImportFiles)

/-! ### The per-operation engine: `handleFileSync` -/

/-- The security-block log line. -/
def securityMsg (rel : List String) : String :=
  "Security block: Attempted to write outside target root: " ++ renderRel rel

/-- The security-block notification
(`vscode.window.showErrorMessage`, line 231 of the source). -/
def securityNotif : String := "Godot Sync: Blocked writing outside of target directory."

/-- The tail of the copy path: `copyFileAtomicWithRetry` then the `Copied`
log line; failures propagate to the surrounding catch. -/
def doCopy (inj : Nat → Option JsErr) (sfx : String) (filePath targetPath : FsPath)
    (rel : List String) (e : Eff) : Except JsErr Unit × Eff :=
  match copyFileAtomicWithRetry inj sfx filePath targetPath e with
  | (.error err, e1) => (.error err, e1)
  | (.ok _, e1) => (.ok (), { e1 with log := e1.log ++ ["Copied: " ++ renderRel rel] })

/-- The `mtimeMs` read off a stat result (directory mtimes are not modelled;
no verified claim stats a directory). -/
def retMtime (r : FsRet) : Int :=
  match r with
  | .statR f => f.mtimeMs
  | _ => 0

/-- The `add`/`change` branch of `handleFileSync` (lines 236–264): make the
target's parent directories, stat the source (tolerating a vanished source),
stat the target (skipping when the destination is not older —
`sourceStat.mtimeMs <= targetStat.mtimeMs` — and warning on a non-`ENOENT`
stat failure), then copy atomically. -/
def copyBranch (inj : Nat → Option JsErr) (sfx : String) (filePath targetPath : FsPath)
    (targetSubDir : FsPath) (rel : List String) (e : Eff) : Except JsErr Unit × Eff :=
  match prim inj (.mkdir targetSubDir) e with
  | (.error err, e1) => (.error err, e1)
  | (.ok _, e1) =>
      match prim inj (.stat filePath) e1 with
      | (.error err, e2) =>
          if getErrorCode err == some "ENOENT" then
            (.ok (), { e2 with log := e2.log ++ ["Skipped (source file gone): " ++ renderRel rel] })
          else (.error err, e2)
      | (.ok sret, e2) =>
          match prim inj (.stat targetPath) e2 with
          | (.ok tret, e3) =>
              if retMtime sret ≤ retMtime tret then
                (.ok (), { e3 with
                  log := e3.log ++ ["Skipped (destination is newer): " ++ renderRel rel] })
              else
                doCopy inj sfx filePath targetPath rel e3
          | (.error err, e3) =>
              if getErrorCode err == some "ENOENT" then
                doCopy inj sfx filePath targetPath rel e3
              else
                doCopy inj sfx filePath targetPath rel
                  { e3 with log := e3.log ++
                    ["Warning: Could not stat target " ++ renderRel rel ++
                      ". Proceeding. Error: " ++ err.msg] }

/-- The `unlink` branch of `handleFileSync` (lines 266–278): deletion is
opt-in; a removal failure with code `ENOENT` is swallowed, any other is
rethrown to the surrounding catch. -/
def deleteBranch (inj : Nat → Option JsErr) (allowDeletion : Bool) (targetPath : FsPath)
    (rel : List String) (e : Eff) : Except JsErr Unit × Eff :=
  if !allowDeletion then
    (.ok (), { e with log := e.log ++ ["Deletion skipped (disabled): " ++ renderRel rel] })
  else
    match unlinkWithRetry inj targetPath e with
    | (.ok _, e1) => (.ok (), { e1 with log := e1.log ++ ["Deleted: " ++ renderRel rel] })
    | (.error err, e1) =>
        if getErrorCode err == some "ENOENT" then (.ok (), e1) else (.error err, e1)

/-- The surrounding `try`/`catch` of `handleFileSync`: a caught error is
turned into an `Error processing file` log line (and deliberately no
notification, line 283 `// Avoid spam`). -/
def afterBranch (rel : List String) (r : Except JsErr Unit × Eff) : Eff :=
  match r with
  | (.ok _, e1) => e1
  | (.error err, e1) =>
      { e1 with log := e1.log ++
        ["Error processing file " ++ renderRel rel ++ ": " ++ err.msg] }

/-- `SyncService.handleFileSync(filePath, eventType)` with a configured
service (`sourceDir`, `targetDir`, normalized `extensions`, `allowDeletion`,
`syncImportFiles`).  The extension gate runs first; then
`relativePath = path.relative(sourceDir, filePath)`,
`targetPath = path.join(targetDir, relativePath)` and
`resolvedTargetPath = path.resolve(targetPath)` — on the segment model `join`
followed by `resolve` is `resolveSegs (targetDir ++ relativePath)`, and
`path.dirname` of the normalized target is `dropLast`.  The containment
check rejects (with a security log line and an error notification) before
any filesystem call. -/
def handleFileSync (sourceDir targetDir : FsPath) (extensions : List String)
    (allowDeletion syncImportFiles : Bool) (sfx : String) (inj : Nat → Option JsErr)
    (filePath : FsPath) (eventType : EventType) (e : Eff) : Eff :=
  if !(extensions.contains (fileExtOf filePath)) then e
  else if fileExtOf filePath == ".import" && !syncImportFiles then e
  else if !(isInsideCheck targetDir (resolveSegs (targetDir ++ relSegs sourceDir filePath))) then
    { e with log := e.log ++ [securityMsg (relSegs sourceDir filePath)],
             notifs := e.notifs ++ [securityNotif] }
  else
    afterBranch (relSegs sourceDir filePath)
      (match eventType with
       | .add => copyBranch inj sfx filePath
           (resolveSegs (targetDir ++ relSegs sourceDir filePath))
           (resolveSegs (targetDir ++ relSegs sourceDir filePath)).dropLast
           (relSegs sourceDir filePath) e
       | .change => copyBranch inj sfx filePath
           (resolveSegs (targetDir ++ relSegs sourceDir filePath))
           (resolveSegs (targetDir ++ relSegs sourceDir filePath)).dropLast
           (relSegs sourceDir filePath) e
       | .unlink => deleteBranch inj allowDeletion
           (resolveSegs (targetDir ++ relSegs sourceDir filePath))
           (relSegs sourceDir filePath) e)

/-! ### The operation queue

`addToQueue` / `processQueue` of the source.  JavaScript is single-threaded:
the only interleaving point is the `await this.handleFileSync(...)`, during
which watcher callbacks may run `addToQueue`.  While `isProcessingQueue` is
`true` such a call only appends to `syncQueue` (its own `processQueue`
invocation returns at the guard) — so the model lets one drain step execute
the head, append the operations `arrivals op` that arrived during its
execution at the tail, and recurse, mirroring the trailing
`this.processQueue()`.  The handler is generic in a state `σ` so that a pure
recording handler can observe the execution order; `fuel` bounds the number
of drain iterations modelled. -/

/-- A queued `SyncOperation`. -/
structure SyncOperation where
  filePath : FsPath
  eventType : EventType
deriving DecidableEq, Repr

/-- The queue-related fields of `SyncService` plus the handler state. -/
structure QState (σ : Type) where
  syncQueue : List SyncOperation
  isProcessingQueue : Bool
  inner : σ
  failLog : List String
deriving Repr

/-- The `Failed to process` log line of `processQueue`'s catch. -/
def failMsg (op : SyncOperation) (m : String) : String :=
  "Failed to process " ++ renderS op.filePath ++ ". Error: " ++ m

/-- `SyncService.processQueue`: return at the guard when already processing
or empty; otherwise shift the head, execute it (catching and logging a
failure), append the operations that arrived during execution, clear the
flag and recurse. -/
def processQueue {σ : Type} (handler : SyncOperation → σ → Except String Unit × σ)
    (arrivals : SyncOperation → List SyncOperation) :
    Nat → QState σ → QState σ
  | 0, s => s
  | fuel + 1, s =>
      if s.isProcessingQueue then s
      else
        match s.syncQueue with
        | [] => s
        | op :: rest =>
            let hr := handler op s.inner
            let fl :=
              match hr.1 with
              | .ok _ => s.failLog
              | .error m => s.failLog ++ [failMsg op m]
            processQueue handler arrivals fuel
              { syncQueue := rest ++ arrivals op, isProcessingQueue := false,
                inner := hr.2, failLog := fl }

/-- `SyncService.addToQueue`: push then trigger a drain. -/
def addToQueue {σ : Type} (handler : SyncOperation → σ → Except String Unit × σ)
    (arrivals : SyncOperation → List SyncOperation) (fuel : Nat)
    (op : SyncOperation) (s : QState σ) : QState σ :=
  processQueue handler arrivals fuel { s with syncQueue := s.syncQueue ++ [op] }

/-- The order in which a drain starting from a given queue executes
operations: head first, operations arriving during its execution behind the
already-queued rest. -/
def drainTrace (arrivals : SyncOperation → List SyncOperation) :
    Nat → List SyncOperation → List SyncOperation
  | 0, _ => []
  | _, [] => []
  | fuel + 1, op :: rest => op :: drainTrace arrivals fuel (rest ++ arrivals op)

/-- A handler that records the operations it executes, succeeding or failing
as a pure result table dictates — used to observe execution order. -/
def recHandler (res : SyncOperation → Except String Unit) :
    SyncOperation → List SyncOperation → Except String Unit × List SyncOperation :=
  fun op l => (res op, l ++ [op])

/-! ### `start`: configuration validation

`SyncService.start` (lines 37–118).  The synchronous part validates the
running flag, non-emptiness and the overlap of the resolved roots; the root
`stat`s happen inside `Promise.all(...).then(...).catch(...)` **after**
`start` has already returned `true`.  Directories are passed as rendered
resolved path strings (`path.resolve` is the identity on them;
`normalize` is the identity off win32); the `stat` oracle returns
`isDirectory()` or the rejection error. -/

/-- The observable outcome of one `start` call: the synchronous return value,
whether the asynchronous continuation created the watcher and assigned the
configuration fields (`sourceDir`, `targetDir`, ...), and the emitted log
lines and notifications. -/
structure StartResult where
  returned : Bool
  watcherCreated : Bool
  stateSet : Bool
  log : List String
  notifs : List String
deriving DecidableEq, Repr

/-- `isSubPath(a, b) = a.startsWith(b + path.sep)` of the source (line 57);
`startsWith` on JavaScript strings is character-prefix. -/
def isSubPathStr (a b : String) : Bool := List.isPrefixOf (b ++ "/").toList a.toList

/-- `SyncService.start(sourceDir, targetDir, extensions, ...)`. -/
def startService (isRunning : Bool) (sourceDir targetDir : String)
    (extensions : List String) (stat : String → Except JsErr Bool) : StartResult :=
  if isRunning then
    { returned := false, watcherCreated := false, stateSet := false,
      log := ["Sync service is already running."], notifs := [] }
  else if sourceDir == "" || targetDir == "" || extensions.isEmpty then
    { returned := false, watcherCreated := false, stateSet := false,
      log := ["Error: Source directory, target directory, and extensions must be configured."],
      notifs := ["Godot Sync: Source, target, and extensions must be set."] }
  else
    -- path.resolve: inputs are already-resolved path strings; normalize is
    -- the identity off win32
    if sourceDir == targetDir || isSubPathStr sourceDir targetDir ||
        isSubPathStr targetDir sourceDir then
      { returned := false, watcherCreated := false, stateSet := false,
        log := ["Error: Source and Target must not overlap or be the same directory."],
        notifs := ["Godot Sync: Source and Target must not overlap or be the same directory."] }
    else
      match stat sourceDir, stat targetDir with
      | .ok sIsDir, .ok tIsDir =>
          if sIsDir && tIsDir then
            { returned := true, watcherCreated := true, stateSet := true,
              log := ["Starting watcher on: " ++ sourceDir, "Target directory: " ++ targetDir],
              notifs := [] }
          else
            { returned := true, watcherCreated := false, stateSet := false,
              log := ["Error starting watcher: Source and Target paths must be directories."],
              notifs := ["Godot Sync: Error starting - Source and Target paths must be directories."] }
      | .error err, _ =>
          { returned := true, watcherCreated := false, stateSet := false,
            log := ["Error starting watcher: " ++ err.msg],
            notifs := ["Godot Sync: Error starting - " ++ err.msg] }
      | _, .error err =>
          { returned := true, watcherCreated := false, stateSet := false,
            log := ["Error starting watcher: " ++ err.msg],
            notifs := ["Godot Sync: Error starting - " ++ err.msg] }

/-! ### Concrete fixtures used by witnesses and counterexamples -/

/-- An empty effect state over a filesystem holding only the target root
`/t`. -/
def eBase : Eff :=
  { fs := { files := [], dirs := [[], ["t"]] }, now := 0, calls := 0,
    log := [], notifs := [], trace := [], delays := [] }

/-- The fault-free injection oracle. -/
def injNone : Nat → Option JsErr := fun _ => none

/-- A transient busy-resource error. -/
def busyErr : JsErr := { code := some "EBUSY", msg := "busy" }

/-- A non-transient error (device full). -/
def noSpaceErr : JsErr := { code := some "ENOSPC", msg := "no space" }

/-- Oracle injecting `EBUSY` into every call from the third on (the rename
calls of an atomic copy whose copy and pre-delete succeeded). -/
def injRenameBusy : Nat → Option JsErr := fun n => if 2 ≤ n then some busyErr else none

/-- Oracle injecting one non-transient failure into the third call. -/
def injRenameNoSpace : Nat → Option JsErr := fun n => if n == 2 then some noSpaceErr else none

/-- Filesystem with one source file `/s/a.gd` and no target file. -/
def eSrcOnly : Eff :=
  { fs := { files := [(["s", "a.gd"], { mtimeMs := 5, content := "A" })],
            dirs := [[], ["s"], ["t"]] },
    now := 0, calls := 0, log := [], notifs := [], trace := [], delays := [] }

/-- Filesystem where the target `/t/a.gd` is newer than the source
`/s/a.gd`. -/
def eDestNewer : Eff :=
  { fs := { files := [(["s", "a.gd"], { mtimeMs := 5, content := "new" }),
                      (["t", "a.gd"], { mtimeMs := 9, content := "old" })],
            dirs := [[], ["s"], ["t"]] },
    now := 0, calls := 0, log := [], notifs := [], trace := [], delays := [] }

/-- An action outcome table failing transiently twice and then
succeeding. -/
def outcomesBusyTwice : Nat → Except JsErr Unit := fun n => if n < 2 then .error busyErr else .ok ()

/-- A `stat` oracle under which every path is an existing directory. -/
def statAllDirs : String → Except JsErr Bool := fun _ => .ok true

/-- A `stat` oracle under which only `/b` exists (as a directory). -/
def statOnlyB : String → Except JsErr Bool :=
  fun p => if p == "/b" then .ok true
           else .error { code := some "ENOENT", msg := "ENOENT: no such file or directory" }

/-- Sample operations for queue witnesses. -/
def opA : SyncOperation := { filePath := ["s", "a.gd"], eventType := .add }

/-- Second sample operation. -/
def opB : SyncOperation := { filePath := ["s", "b.gd"], eventType := .change }

/-- Third sample operation. -/
def opC : SyncOperation := { filePath := ["s", "c.gd"], eventType := .unlink }

/-- A result table for queue witnesses: the first sample operation fails. -/
def resBoomA : SyncOperation → Except String Unit :=
  fun op => if op == opA then .error "boom" else .ok ()

/-- A starting queue state holding two pending operations. -/
def qStart : QState (List SyncOperation) :=
  { syncQueue := [opA, opB], isProcessingQueue := false, inner := [], failLog := [] }

/-- A character list that is empty or starts with the separator. -/
def HeadSlash (v : List Char) : Prop := v = [] ∨ ∃ w, v = '/' :: w

/-- Instrumented action for observing `withRetry`: the state is the number of
invocations so far; each invocation's outcome is read off a pure table. -/
def countingFn (outcomes : Nat → Except JsErr Unit) :
    Nat × List Nat → Except JsErr Unit × (Nat × List Nat) :=
  fun s => (outcomes s.1, (s.1 + 1, s.2))

/-- Instrumented backoff: records each sleep's duration. -/
def recordSleep : Nat → Nat × List Nat → Nat × List Nat := fun d s => (s.1, s.2 ++ [d])

/-- The backoff schedule `base * 3 ^ attempt` for `k` consecutive failed
attempts starting at attempt number `att`. -/
def delaysFor (base : Nat) : Nat → Nat → List Nat
  | _, 0 => []
  | att, k + 1 => base * 3 ^ att :: delaysFor base (att + 1) k

/-! ## Helper lemmas: lists, rendered paths, and the containment check -/

theorem prefixOf_iff {α : Type} [BEq α] [LawfulBEq α] :
    ∀ (a b : List α), a.isPrefixOf b = true ↔ a <+: b := by
  intro a
  induction a with
  | nil => intro b; simp [List.isPrefixOf]
  | cons x xs ih =>
      intro b
      cases b with
      | nil => simp [List.isPrefixOf]
      | cons y ys =>
          simp only [List.isPrefixOf, Bool.and_eq_true, beq_iff_eq, ih ys,
            List.cons_prefix_cons]

theorem mem_dropLast {α : Type} {s : α} : ∀ {l : List α}, s ∈ l.dropLast → s ∈ l := by
  intro l
  induction l with
  | nil => simp
  | cons x xs ih =>
      cases xs with
      | nil => simp
      | cons y ys =>
          intro h
          rcases List.mem_cons.mp h with h1 | h2
          · exact h1 ▸ List.mem_cons_self _ _
          · exact List.mem_cons_of_mem _ (ih h2)

theorem slash_boundary_pre :
    ∀ (xs ys u v : List Char), '/' ∉ xs → '/' ∉ ys → HeadSlash v →
      xs ++ '/' :: u <+: ys ++ v → xs = ys ∧ '/' :: u <+: v := by
  intro xs
  induction xs with
  | nil =>
      intro ys u v _ hys hv h
      cases ys with
      | nil => exact ⟨rfl, h⟩
      | cons c ys' =>
          exfalso
          simp only [List.nil_append, List.cons_append, List.cons_prefix_cons] at h
          exact hys (by rw [← h.1]; exact List.mem_cons_self _ _)
  | cons c xs' ih =>
      intro ys u v hxs hys hv h
      cases ys with
      | nil =>
          exfalso
          rcases hv with hv | ⟨w, hw⟩
          · subst hv
            simp only [List.nil_append, List.append_nil, List.prefix_nil] at h
            exact List.cons_ne_nil _ _ h
          · subst hw
            simp only [List.cons_append, List.nil_append, List.cons_prefix_cons] at h
            exact hxs (by rw [h.1]; exact List.mem_cons_self _ _)
      | cons d ys' =>
          simp only [List.cons_append, List.cons_prefix_cons] at h
          have := ih ys' u v (fun hm => hxs (List.mem_cons_of_mem _ hm))
            (fun hm => hys (List.mem_cons_of_mem _ hm)) hv h.2
          exact ⟨by rw [h.1, this.1], this.2⟩

theorem slash_boundary_eq :
    ∀ (xs ys v₁ v₂ : List Char), '/' ∉ xs → '/' ∉ ys → HeadSlash v₁ → HeadSlash v₂ →
      xs ++ v₁ = ys ++ v₂ → xs = ys ∧ v₁ = v₂ := by
  intro xs
  induction xs with
  | nil =>
      intro ys v₁ v₂ _ hys hv1 hv2 h
      cases ys with
      | nil => exact ⟨rfl, h⟩
      | cons d ys' =>
          exfalso
          rcases hv1 with hv1 | ⟨w, hw⟩
          · subst hv1; simp at h
          · subst hw
            simp only [List.nil_append, List.cons_append, List.cons.injEq] at h
            exact hys (by rw [← h.1]; exact List.mem_cons_self _ _)
  | cons c xs' ih =>
      intro ys v₁ v₂ hxs hys hv1 hv2 h
      cases ys with
      | nil =>
          exfalso
          rcases hv2 with hv2 | ⟨w, hw⟩
          · subst hv2; simp at h
          · subst hw
            simp only [List.cons_append, List.nil_append, List.cons.injEq] at h
            exact hxs (by rw [h.1]; exact List.mem_cons_self _ _)
      | cons d ys' =>
          simp only [List.cons_append, List.cons.injEq] at h
          have := ih ys' v₁ v₂ (fun hm => hxs (List.mem_cons_of_mem _ hm))
            (fun hm => hys (List.mem_cons_of_mem _ hm)) hv1 hv2 h.2
          exact ⟨by rw [h.1, this.1], this.2⟩

theorem segsChars_append : ∀ (a b : List Seg), segsChars (a ++ b) = segsChars a ++ segsChars b := by
  intro a b
  induction a with
  | nil => simp [segsChars]
  | cons s rest ih => simp [segsChars, ih]

theorem segsChars_headSlash (l : List Seg) : HeadSlash (segsChars l) := by
  cases l with
  | nil => exact Or.inl rfl
  | cons s rest => exact Or.inr ⟨s.toList ++ segsChars rest, rfl⟩

theorem segsChars_concat_slash (l : List Seg) :
    ∃ u, segsChars l ++ ['/'] = '/' :: u := by
  cases l with
  | nil => exact ⟨[], rfl⟩
  | cons s rest => exact ⟨s.toList ++ segsChars rest ++ ['/'], by simp [segsChars]⟩

theorem toList_inj {a b : String} (h : a.toList = b.toList) : a = b := by
  cases a; cases b
  simp only [String.toList] at h
  simp [h]

theorem wfseg_no_slash {s : Seg} (h : WfSeg s) : '/' ∉ s.toList := h.2.2.2

theorem segsChars_inj : ∀ (p q : List Seg), WfPath p → WfPath q →
    segsChars p = segsChars q → p = q := by
  intro p
  induction p with
  | nil =>
      intro q _ hq h
      cases q with
      | nil => rfl
      | cons s rest => exact absurd h.symm (by simp [segsChars])
  | cons a p' ih =>
      intro q hp hq h
      cases q with
      | nil => exact absurd h (by simp [segsChars])
      | cons b q' =>
          simp only [segsChars, List.cons_append, List.cons.injEq, true_and] at h
          have hb := slash_boundary_eq a.toList b.toList (segsChars p') (segsChars q')
            (wfseg_no_slash (hp a (List.mem_cons_self _ _)))
            (wfseg_no_slash (hq b (List.mem_cons_self _ _)))
            (segsChars_headSlash p') (segsChars_headSlash q') h
          have ha : a = b := toList_inj hb.1
          have hrest : p' = q' := ih q' (fun s hs => hp s (List.mem_cons_of_mem _ hs))
            (fun s hs => hq s (List.mem_cons_of_mem _ hs)) hb.2
          rw [ha, hrest]

theorem segsChars_pre_sound : ∀ (td tp : List Seg), WfPath td → WfPath tp →
    segsChars td ++ ['/'] <+: segsChars tp → td <+: tp := by
  intro td
  induction td with
  | nil => intro tp _ _ _; exact List.nil_prefix
  | cons a td' ih =>
      intro tp htd htp h
      cases tp with
      | nil =>
          exfalso
          simp only [segsChars, List.prefix_nil] at h
          simp at h
      | cons b tp' =>
          obtain ⟨u, hu⟩ := segsChars_concat_slash td'
          have h2 : a.toList ++ ('/' :: u) <+: b.toList ++ segsChars tp' := by
            rw [← hu]
            have h' := h
            simp only [segsChars, List.cons_append, List.append_assoc] at h'
            exact (List.cons_prefix_cons.mp h').2
          have hb := slash_boundary_pre a.toList b.toList u (segsChars tp')
            (wfseg_no_slash (htd a (List.mem_cons_self _ _)))
            (wfseg_no_slash (htp b (List.mem_cons_self _ _)))
            (segsChars_headSlash tp') h2
          have ha : a = b := toList_inj hb.1
          have hpre2 : segsChars td' ++ ['/'] <+: segsChars tp' := by
            rw [hu]; exact hb.2
          have := ih tp' (fun s hs => htd s (List.mem_cons_of_mem _ hs))
            (fun s hs => htp s (List.mem_cons_of_mem _ hs)) hpre2
          rw [ha]
          exact List.cons_prefix_cons.mpr ⟨rfl, this⟩

theorem segsChars_ne_nil {s : Seg} {l : List Seg} : segsChars (s :: l) ≠ [] := by
  simp [segsChars]

theorem renderP_inj {p q : FsPath} (hp : WfPath p) (hq : WfPath q)
    (h : renderP p = renderP q) : p = q := by
  cases p with
  | nil =>
      cases q with
      | nil => rfl
      | cons b q' =>
          exfalso
          simp only [renderP] at h
          have hb : b ≠ "" := (hq b (List.mem_cons_self _ _)).1
          cases hc : b.toList with
          | nil => exact hb (toList_inj (hc.trans (by decide)))
          | cons c cs => rw [segsChars, hc] at h; simp at h
  | cons a p' =>
      cases q with
      | nil =>
          exfalso
          simp only [renderP] at h
          have ha : a ≠ "" := (hp a (List.mem_cons_self _ _)).1
          cases hc : a.toList with
          | nil => exact ha (toList_inj (hc.trans (by decide)))
          | cons c cs => rw [segsChars, hc] at h; simp at h
      | cons b q' =>
          simp only [renderP] at h
          exact segsChars_inj _ _ hp hq h

theorem renderP_pre_sound {td tp : FsPath} (htd : WfPath td) (htp : WfPath tp)
    (h : renderP td ++ ['/'] <+: renderP tp) : td <+: tp := by
  cases td with
  | nil => exact List.nil_prefix
  | cons a td' =>
      cases tp with
      | nil =>
          exfalso
          simp only [renderP] at h
          have hlen := h.length_le
          simp only [List.length_append, List.length_cons, List.length_singleton] at hlen
          have hnil : segsChars (a :: td') = [] := by
            cases hc : segsChars (a :: td') with
            | nil => rfl
            | cons c cs => rw [hc] at hlen; simp at hlen
          exact segsChars_ne_nil hnil
      | cons b tp' =>
          exact segsChars_pre_sound _ _ htd htp h

/-- Soundness of the string containment check of `handleFileSync`: if the
check passes on well-formed paths, the target path really is the target root
or one of its descendants. -/
theorem insideCheck_sound {td tp : FsPath} (htd : WfPath td) (htp : WfPath tp)
    (h : isInsideCheck td tp = true) : td <+: tp := by
  unfold isInsideCheck at h
  rcases Bool.or_eq_true _ _ |>.mp h with h1 | h2
  · have heq : renderP tp = renderP td := by
      have h2 : (renderP tp == renderP td) = true := h1
      exact beq_iff_eq.mp h2
    rw [renderP_inj htp htd heq]
  · exact renderP_pre_sound htd htp ((prefixOf_iff _ _).mp h2)

/-- Completeness for genuine descendants of a non-root target root: the
check accepts them. -/
theorem insideCheck_of_append {td rest : FsPath} (htd : td ≠ []) (hrest : rest ≠ []) :
    isInsideCheck td (td ++ rest) = true := by
  unfold isInsideCheck
  apply Bool.or_eq_true _ _ |>.mpr
  right
  apply (prefixOf_iff _ _).mpr
  cases td with
  | nil => exact absurd rfl htd
  | cons a td' =>
      cases rest with
      | nil => exact absurd rfl hrest
      | cons b rest' =>
          refine ⟨b.toList ++ segsChars rest', ?_⟩
          simp [renderP, List.cons_append, segsChars, segsChars_append, List.append_assoc]

theorem resolveSegs_mem {s : Seg} : ∀ (l : List String), s ∈ resolveSegs l →
    s ∈ l ∧ s ≠ ".." ∧ s ≠ "." := by
  have aux : ∀ (l : List String) (acc : FsPath),
      s ∈ l.foldl (fun acc s => if s = ".." then acc.dropLast else
        if s = "." then acc else acc ++ [s]) acc →
      s ∈ acc ∨ (s ∈ l ∧ s ≠ ".." ∧ s ≠ ".") := by
    intro l
    induction l with
    | nil => intro acc h; exact Or.inl h
    | cons x xs ih =>
        intro acc h
        simp only [List.foldl_cons] at h
        rcases ih _ h with h1 | h2
        · by_cases hx1 : x = ".."
          · rw [if_pos hx1] at h1
            exact Or.inl (mem_dropLast h1)
          · rw [if_neg hx1] at h1
            by_cases hx2 : x = "."
            · rw [if_pos hx2] at h1; exact Or.inl h1
            · rw [if_neg hx2] at h1
              rcases List.mem_append.mp h1 with h3 | h4
              · exact Or.inl h3
              · refine Or.inr ⟨?_, ?_, ?_⟩
                · have : s = x := by simpa using h4
                  rw [this]; exact List.mem_cons_self _ _
                · have : s = x := by simpa using h4
                  rw [this]; exact hx1
                · have : s = x := by simpa using h4
                  rw [this]; exact hx2
        · exact Or.inr ⟨List.mem_cons_of_mem _ h2.1, h2.2⟩
  intro l h
  rcases aux l [] h with h1 | h2
  · simp at h1
  · exact h2

theorem resolveSegs_no_dots : ∀ (l : List String),
    (∀ s ∈ l, s ≠ ".." ∧ s ≠ ".") → resolveSegs l = l := by
  have aux : ∀ (l : List String) (acc : FsPath), (∀ s ∈ l, s ≠ ".." ∧ s ≠ ".") →
      l.foldl (fun acc s => if s = ".." then acc.dropLast else
        if s = "." then acc else acc ++ [s]) acc = acc ++ l := by
    intro l
    induction l with
    | nil => intro acc _; simp
    | cons x xs ih =>
        intro acc hl
        have hx := hl x (List.mem_cons_self _ _)
        simp only [List.foldl_cons, if_neg hx.1, if_neg hx.2]
        rw [ih _ (fun s hs => hl s (List.mem_cons_of_mem _ hs))]
        simp
  intro l hl
  have := aux l [] hl
  simpa [resolveSegs] using this

theorem commonPrefixLen_self_append : ∀ (sd rest : List Seg),
    commonPrefixLen sd (sd ++ rest) = sd.length := by
  intro sd
  induction sd with
  | nil => intro rest; cases rest <;> simp [commonPrefixLen]
  | cons a as ih => intro rest; simp [commonPrefixLen, ih]

theorem relSegs_self_append (sd rest : FsPath) : relSegs sd (sd ++ rest) = rest := by
  unfold relSegs
  rw [commonPrefixLen_self_append]
  simp [List.drop_left]

/-- The resolved target path of a file under the source root is the
corresponding path under the target root. -/
theorem targetPath_under (sd td rest : FsPath)
    (htd : ∀ s ∈ td, s ≠ ".." ∧ s ≠ ".") (hrest : ∀ s ∈ rest, s ≠ ".." ∧ s ≠ ".") :
    resolveSegs (td ++ relSegs sd (sd ++ rest)) = td ++ rest := by
  rw [relSegs_self_append]
  apply resolveSegs_no_dots
  intro s hs
  rcases List.mem_append.mp hs with h | h
  · exact htd s h
  · exact hrest s h

/-- Well-formedness of the resolved target path. -/
theorem wf_targetPath {sd td fp : FsPath} (htd : WfPath td) (hfp : WfPath fp) :
    WfPath (resolveSegs (td ++ relSegs sd fp)) := by
  intro s hs
  obtain ⟨hmem, hdd, hd⟩ := resolveSegs_mem _ hs
  rcases List.mem_append.mp hmem with h | h
  · exact htd s h
  · unfold relSegs at h
    rcases List.mem_append.mp h with h1 | h2
    · exact absurd (List.eq_of_mem_replicate h1) hdd
    · exact hfp s (List.mem_of_mem_drop h2)

/-! ## Helper lemmas: the filesystem state -/

theorem files_addDirs (fs : FsState) (p : FsPath) : (addDirs fs p).files = fs.files := rfl

theorem findFile_addDirs (fs : FsState) (p q : FsPath) :
    findFile (addDirs fs p) q = findFile fs q := rfl

theorem addDirs_of_present {fs : FsState} {p : FsPath}
    (h : ∀ d ∈ dirPrefixes p, fs.dirs.contains d = true) : addDirs fs p = fs := by
  unfold addDirs
  have hf : (dirPrefixes p).filter (fun d => !(fs.dirs.contains d)) = [] := by
    rw [List.filter_eq_nil_iff]
    intro d hd
    rw [h d hd]
    decide
  rw [hf, List.append_nil]

theorem find?_setFile_self (l : List (FsPath × SFile)) (p : FsPath) (f : SFile) :
    ∀ start : List (FsPath × SFile), (∀ q ∈ start, (q.1 == p) = false) →
    ((start ++ l.filter (fun q => !(q.1 == p))) ++ [(p, f)]).find? (fun q => q.1 == p) =
      some (p, f) := by
  induction l with
  | nil =>
      intro start hs
      induction start with
      | nil => simp [List.find?]
      | cons x xs ihs =>
          simp only [List.filter_nil, List.append_nil, List.cons_append] at *
          rw [List.find?_cons, hs x (List.mem_cons_self _ _)]
          exact ihs (fun q hq => hs q (List.mem_cons_of_mem _ hq))
  | cons x xs ih =>
      intro start hs
      by_cases hx : (x.1 == p) = true
      · rw [List.filter_cons_of_neg (by simp [hx])]
        exact ih start hs
      · rw [List.filter_cons_of_pos (by simp [Bool.not_eq_true] at hx; simp [hx])]
        have hmv : start ++ x :: xs.filter (fun q => !(q.1 == p)) =
            (start ++ [x]) ++ xs.filter (fun q => !(q.1 == p)) := by simp
        rw [hmv]
        apply ih (start ++ [x])
        intro q hq
        rcases List.mem_append.mp hq with h1 | h2
        · exact hs q h1
        · have hqx : q = x := by simpa using h2
          rw [hqx]
          exact Bool.not_eq_true _ ▸ hx

theorem findFile_setFile_self (fs : FsState) (p : FsPath) (f : SFile) :
    findFile (setFile fs p f) p = some f := by
  unfold findFile setFile
  have := find?_setFile_self fs.files p f [] (by intro q hq; simp at hq)
  simp only [List.nil_append] at this
  rw [this]
  rfl

theorem find?_filter_other (l : List (FsPath × SFile)) (p q : FsPath) (hq : q ≠ p) :
    (l.filter (fun r => !(r.1 == p))).find? (fun r => r.1 == q) =
      l.find? (fun r => r.1 == q) := by
  induction l with
  | nil => simp
  | cons x xs ih =>
      by_cases hx : (x.1 == p) = true
      · have hxq : (x.1 == q) = false := by
          have hxp : x.1 = p := by simpa using hx
          simp [hxp, Ne.symm hq]
        rw [List.filter_cons_of_neg (by simp [hx]), List.find?_cons, hxq, ih]
      · rw [List.filter_cons_of_pos (by simp [Bool.not_eq_true] at hx; simp [hx])]
        rw [List.find?_cons, List.find?_cons]
        by_cases hxq : (x.1 == q) = true
        · rw [hxq]
        · have hxq' : (x.1 == q) = false := by simpa using hxq
          rw [hxq', ih]

theorem findFile_setFile_other (fs : FsState) (p q : FsPath) (f : SFile) (hq : q ≠ p) :
    findFile (setFile fs p f) q = findFile fs q := by
  unfold findFile setFile
  simp only
  rw [List.find?_append, find?_filter_other fs.files p q hq]
  cases hf : fs.files.find? (fun r => r.1 == q) with
  | some r => simp
  | none =>
      simp only [Option.none_or]
      rw [List.find?_cons]
      have : ((p, f).1 == q) = false := by simp [Ne.symm hq]
      rw [this]
      simp [List.find?]

theorem findFile_removeFile_self (fs : FsState) (p : FsPath) :
    findFile (removeFile fs p) p = none := by
  unfold findFile removeFile
  simp only
  cases hf : (fs.files.filter (fun q => !(q.1 == p))).find? (fun q => q.1 == p) with
  | none => simp
  | some r =>
      exfalso
      have hr := List.find?_some hf
      have hmem := List.mem_filter.mp (List.mem_of_find?_eq_some hf)
      rw [hr] at hmem
      simp at hmem

theorem findFile_removeFile_other (fs : FsState) (p q : FsPath) (hq : q ≠ p) :
    findFile (removeFile fs p) q = findFile fs q := by
  unfold findFile removeFile
  simp only
  rw [find?_filter_other fs.files p q hq]

theorem tmpName_ne (dst : FsPath) (sfx : String) : tmpName dst sfx ≠ dst := by
  unfold tmpName
  intro h
  cases dst with
  | nil => simp at h
  | cons a l =>
      have hlast := congrArg (fun t => t.getLastD "") h
      simp only [List.getLastD_concat] at hlast
      have hlen := congrArg String.length hlast
      rw [String.length_append, String.length_append] at hlen
      have h17 : (".__godotsync_tmp_" : String).length = 17 := by decide
      rw [h17] at hlen
      omega

/-! ## Helper lemmas: the retry loop -/

theorem delaysFor_succ (base att k : Nat) :
    delaysFor base att (k + 1) = base * 3 ^ att :: delaysFor base (att + 1) k := rfl

/-- Full characterization of the retry loop run against a pure outcome
table: `k` is the total number of invocations performed, `fds` the backoff
schedule, `res` the overall result. -/
theorem retryGo_spec (outcomes : Nat → Except JsErr Unit) (opName : String) (base : Nat) :
    ∀ (rem att n : Nat) (ds : List Nat) (le : JsErr) (res : Except JsErr Unit)
      (k : Nat) (fds : List Nat),
    retryGo opName (countingFn outcomes) recordSleep base rem att le (n, ds) = (res, (k, fds)) →
    (n ≤ k ∧ k ≤ n + rem) ∧
    (0 < rem → n < k) ∧
    (∀ i, n ≤ i → i + 1 < k → ∃ err, outcomes i = .error err ∧ isTransient err = true) ∧
    (n < k →
      (∀ v, outcomes (k - 1) = .ok v → res = .ok v ∧ fds = ds ++ delaysFor base att (k - 1 - n)) ∧
      (∀ err, outcomes (k - 1) = .error err →
        res = .error (wrapErr opName err) ∧
        (isTransient err = false → fds = ds ++ delaysFor base att (k - 1 - n)) ∧
        (isTransient err = true → k = n + rem ∧ fds = ds ++ delaysFor base att (k - n)))) := by
  intro rem
  induction rem with
  | zero =>
      intro att n ds le res k fds h
      simp only [retryGo] at h
      obtain ⟨hres, hk, hfds⟩ : res = .error (wrapErr opName le) ∧ k = n ∧ fds = ds := by
        have h1 := congrArg Prod.fst h
        have h2 := congrArg (fun t => t.2.1) h
        have h3 := congrArg (fun t => t.2.2) h
        exact ⟨h1.symm, h2.symm, h3.symm⟩
      subst hk
      refine ⟨⟨le_refl _, by omega⟩, by omega, ?_, by omega⟩
      intro i hi1 hi2
      omega
  | succ rem ih =>
      intro att n ds le res k fds h
      simp only [retryGo, countingFn] at h
      cases ho : outcomes n with
      | ok v =>
          rw [ho] at h
          simp only at h
          obtain ⟨hres, hk, hfds⟩ : res = .ok v ∧ k = n + 1 ∧ fds = ds := by
            have h1 := congrArg Prod.fst h
            have h2 := congrArg (fun t => t.2.1) h
            have h3 := congrArg (fun t => t.2.2) h
            exact ⟨h1.symm, h2.symm, h3.symm⟩
          subst hk
          refine ⟨⟨by omega, by omega⟩, by omega, ?_, ?_⟩
          · intro i hi1 hi2; omega
          · intro _
            constructor
            · intro v' hov
              constructor
              · exact hres
              · rw [hfds]
                have h0 : n + 1 - 1 - n = 0 := by omega
                rw [h0]
                simp [delaysFor]
            · intro err hov
              rw [Nat.add_sub_cancel, ho] at hov
              cases hov
      | error err =>
          rw [ho] at h
          simp only at h
          cases ht : isTransient err with
          | false =>
              rw [ht] at h
              simp only [Bool.false_eq_true, if_false] at h
              obtain ⟨hres, hk, hfds⟩ : res = .error (wrapErr opName err) ∧ k = n + 1 ∧ fds = ds := by
                have h1 := congrArg Prod.fst h
                have h2 := congrArg (fun t => t.2.1) h
                have h3 := congrArg (fun t => t.2.2) h
                exact ⟨h1.symm, h2.symm, h3.symm⟩
              subst hk
              refine ⟨⟨by omega, by omega⟩, by omega, ?_, ?_⟩
              · intro i hi1 hi2; omega
              · intro _
                constructor
                · intro v hov
                  rw [Nat.add_sub_cancel, ho] at hov
                  cases hov
                · intro err' hov
                  have herr : err' = err := by
                    rw [Nat.add_sub_cancel, ho] at hov; cases hov; rfl
                  subst herr
                  refine ⟨hres, ?_, ?_⟩
                  · intro _
                    simp only [Nat.add_sub_cancel, Nat.sub_self, delaysFor, List.append_nil]
                    exact hfds
                  · intro habs
                    rw [habs] at ht
                    cases ht
          | true =>
              rw [ht] at h
              simp only [if_true] at h
              have hrec : retryGo opName (countingFn outcomes) recordSleep base rem (att + 1) err
                  (n + 1, ds ++ [base * 3 ^ att]) = (res, (k, fds)) := by
                rw [← h]
                rfl
              have IH := ih (att + 1) (n + 1) (ds ++ [base * 3 ^ att]) err res k fds hrec
              obtain ⟨⟨hb1, hb2⟩, hpos, htr, hfin⟩ := IH
              refine ⟨⟨by omega, by omega⟩, by omega, ?_, ?_⟩
              · intro i hi1 hi2
                rcases Nat.eq_or_lt_of_le hi1 with hieq | hilt
                · exact ⟨err, by rw [← hieq]; exact ho, ht⟩
                · exact htr i (by omega) hi2
              · intro hnk
                cases rem with
                | zero =>
                    simp only [retryGo] at hrec
                    obtain ⟨hres, hk, hfds⟩ :
                        res = .error (wrapErr opName err) ∧ k = n + 1 ∧
                          fds = ds ++ [base * 3 ^ att] := by
                      have h1 := congrArg Prod.fst hrec
                      have h2 := congrArg (fun t => t.2.1) hrec
                      have h3 := congrArg (fun t => t.2.2) hrec
                      exact ⟨h1.symm, h2.symm, h3.symm⟩
                    subst hk
                    constructor
                    · intro v hov
                      rw [Nat.add_sub_cancel, ho] at hov
                      cases hov
                    · intro err' hov
                      have herr : err' = err := by
                        rw [Nat.add_sub_cancel, ho] at hov; cases hov; rfl
                      subst herr
                      refine ⟨hres, ?_, ?_⟩
                      · intro habs
                        rw [habs] at ht
                        cases ht
                      · intro _
                        refine ⟨by omega, ?_⟩
                        rw [hfds]
                        simp [Nat.add_sub_cancel_left, delaysFor]
                | succ rem' =>
                    have hklow : n + 1 < k := hpos (by omega)
                    have hfin2 := hfin hklow
                    constructor
                    · intro v hov
                      obtain ⟨hres, hfds⟩ := hfin2.1 v hov
                      refine ⟨hres, ?_⟩
                      rw [hfds]
                      have harith : k - 1 - n = (k - 1 - (n + 1)) + 1 := by omega
                      rw [harith, delaysFor_succ]
                      simp
                    · intro err' hov
                      obtain ⟨hres, hfa, hta⟩ := hfin2.2 err' hov
                      refine ⟨hres, ?_, ?_⟩
                      · intro hnt
                        rw [hfa hnt]
                        have harith : k - 1 - n = (k - 1 - (n + 1)) + 1 := by omega
                        rw [harith, delaysFor_succ]
                        simp
                      · intro hyt
                        obtain ⟨hkeq, hfds⟩ := hta hyt
                        refine ⟨by omega, ?_⟩
                        rw [hfds]
                        have harith : k - n = (k - (n + 1)) + 1 := by omega
                        rw [harith, delaysFor_succ]
                        simp

/-! ## Helper lemmas: the operation queue -/

theorem processQueue_guard {σ : Type} (handler : SyncOperation → σ → Except String Unit × σ)
    (arrivals : SyncOperation → List SyncOperation) (fuel : Nat) (s : QState σ)
    (h : s.isProcessingQueue = true) : processQueue handler arrivals fuel s = s := by
  cases fuel with
  | zero => rfl
  | succ f => simp [processQueue, h]

theorem processQueue_inner_trace (res : SyncOperation → Except String Unit)
    (arrivals : SyncOperation → List SyncOperation) :
    ∀ (fuel : Nat) (s : QState (List SyncOperation)), s.isProcessingQueue = false →
      (processQueue (recHandler res) arrivals fuel s).inner =
        s.inner ++ drainTrace arrivals fuel s.syncQueue := by
  intro fuel
  induction fuel with
  | zero => intro s _; simp [processQueue, drainTrace]
  | succ f ih =>
      intro s hs
      cases hq : s.syncQueue with
      | nil =>
          simp only [processQueue, hs, Bool.false_eq_true, if_false, hq, drainTrace,
            List.append_nil]
      | cons op rest =>
          simp only [processQueue, hs, Bool.false_eq_true, if_false, hq, recHandler]
          rw [ih _ (by rfl)]
          simp [drainTrace, List.append_assoc]

theorem drainTrace_take (arrivals : SyncOperation → List SyncOperation) :
    ∀ (fuel : Nat) (q extra : List SyncOperation), q.length ≤ fuel →
      (drainTrace arrivals fuel (q ++ extra)).take q.length = q := by
  intro fuel
  induction fuel with
  | zero =>
      intro q extra hq
      have : q = [] := List.length_eq_zero.mp (by omega)
      subst this
      simp
  | succ f ih =>
      intro q extra hq
      cases q with
      | nil => simp
      | cons op rest =>
          simp only [List.cons_append, drainTrace, List.length_cons, List.take_succ_cons,
            List.append_eq]
          rw [List.append_assoc]
          rw [ih rest (extra ++ arrivals op) (by simp at hq; omega)]

theorem drainTrace_no_arrivals :
    ∀ (fuel : Nat) (q : List SyncOperation), q.length ≤ fuel →
      drainTrace (fun _ => []) fuel q = q := by
  intro fuel
  induction fuel with
  | zero =>
      intro q hq
      have : q = [] := List.length_eq_zero.mp (by omega)
      subst this
      rfl
  | succ f ih =>
      intro q hq
      cases q with
      | nil => rfl
      | cons op rest =>
          simp only [drainTrace, List.append_nil]
          rw [ih rest (by simp at hq; omega)]

theorem processQueue_drains {σ : Type} (handler : SyncOperation → σ → Except String Unit × σ) :
    ∀ (fuel : Nat) (s : QState σ), s.isProcessingQueue = false → s.syncQueue.length ≤ fuel →
      (processQueue handler (fun _ => []) fuel s).syncQueue = [] := by
  intro fuel
  induction fuel with
  | zero =>
      intro s _ hl
      simp only [processQueue]
      exact List.length_eq_zero.mp (by omega)
  | succ f ih =>
      intro s hs hl
      cases hq : s.syncQueue with
      | nil => simp [processQueue, hs, hq]
      | cons op rest =>
          simp only [processQueue, hs, Bool.false_eq_true, if_false, hq]
          apply ih
          · rfl
          · simp only [List.append_nil]
            rw [hq] at hl
            simp at hl
            omega

theorem processQueue_failLog_mono {σ : Type}
    (handler : SyncOperation → σ → Except String Unit × σ)
    (arrivals : SyncOperation → List SyncOperation) :
    ∀ (fuel : Nat) (s : QState σ),
      ∃ l, (processQueue handler arrivals fuel s).failLog = s.failLog ++ l := by
  intro fuel
  induction fuel with
  | zero => intro s; exact ⟨[], by simp [processQueue]⟩
  | succ f ih =>
      intro s
      by_cases hs : s.isProcessingQueue = true
      · exact ⟨[], by simp [processQueue, hs]⟩
      · cases hq : s.syncQueue with
        | nil =>
            refine ⟨[], ?_⟩
            simp only [Bool.not_eq_true] at hs
            simp [processQueue, hs, hq]
        | cons op rest =>
            simp only [Bool.not_eq_true] at hs
            simp only [processQueue, hs, Bool.false_eq_true, if_false, hq]
            cases hr : (handler op s.inner).1 with
            | ok v =>
                obtain ⟨l, hl⟩ := ih
                  { syncQueue := rest ++ arrivals op, isProcessingQueue := false,
                    inner := (handler op s.inner).2, failLog := s.failLog }
                exact ⟨l, by rw [hr] at *; simpa using hl⟩
            | error m =>
                obtain ⟨l, hl⟩ := ih
                  { syncQueue := rest ++ arrivals op, isProcessingQueue := false,
                    inner := (handler op s.inner).2, failLog := s.failLog ++ [failMsg op m] }
                refine ⟨failMsg op m :: l, ?_⟩
                rw [hr] at *
                simp only at hl
                rw [hl]
                simp

/-! ## Helper lemmas: notification preservation -/

theorem notifs_ite {c : Prop} [Decidable c] {β : Type} (x y : β × Eff) (N : List String)
    (hx : x.2.notifs = N) (hy : y.2.notifs = N) : (if c then x else y).2.notifs = N := by
  split
  · exact hx
  · exact hy

theorem notifs_fsSem (a : FsAction) (e : Eff) : ((fsSem a e).2).notifs = e.notifs := by
  cases a with
  | mkdir p => rfl
  | stat p =>
      simp only [fsSem]
      cases findFile e.fs p
      · exact notifs_ite _ _ _ rfl rfl
      · rfl
  | copy src dst =>
      simp only [fsSem]
      cases findFile e.fs src <;> rfl
  | unlink p =>
      simp only [fsSem]
      cases findFile e.fs p <;> rfl
  | rename src dst =>
      simp only [fsSem]
      cases findFile e.fs src <;> rfl

theorem notifs_prim (inj : Nat → Option JsErr) (a : FsAction) (e : Eff) :
    ((prim inj a e).2).notifs = e.notifs := by
  simp only [prim]
  cases inj e.calls
  · exact notifs_fsSem a _
  · rfl

theorem notifs_retryGo {α : Type} (opName : String) (fn : Eff → Except JsErr α × Eff)
    (base : Nat) (hfn : ∀ e : Eff, ((fn e).2).notifs = e.notifs) :
    ∀ (rem att : Nat) (le : JsErr) (e : Eff),
      ((retryGo opName fn sleepEff base rem att le e).2).notifs = e.notifs := by
  intro rem
  induction rem with
  | zero => intro att le e; rfl
  | succ r ih =>
      intro att le e
      simp only [retryGo]
      cases hf : fn e with
      | mk fst snd =>
          have hsnd : snd.notifs = e.notifs := by
            have h := hfn e
            rw [hf] at h
            exact h
          cases fst with
          | ok v => exact hsnd
          | error err =>
              refine notifs_ite _ _ _ ?_ hsnd
              rw [ih]
              exact hsnd

theorem notifs_withRetry {α : Type} (opName : String) (fn : Eff → Except JsErr α × Eff)
    (retries base : Nat) (e : Eff) (hfn : ∀ e : Eff, ((fn e).2).notifs = e.notifs) :
    ((withRetry opName fn sleepEff retries base e).2).notifs = e.notifs :=
  notifs_retryGo opName fn base hfn (retries + 1) 0 _ e

theorem notifs_discardRet_prim (inj : Nat → Option JsErr) (a : FsAction) (e : Eff) :
    ((discardRet (prim inj a e)).2).notifs = e.notifs := by
  unfold discardRet
  cases hp : prim inj a e with
  | mk fst snd =>
      have hsnd : snd.notifs = e.notifs := by
        have h := notifs_prim inj a e
        rw [hp] at h
        exact h
      cases fst <;> exact hsnd

theorem notifs_unlinkTolerant (inj : Nat → Option JsErr) (p : FsPath) (e : Eff) :
    ((unlinkTolerant inj p e).2).notifs = e.notifs := by
  unfold unlinkTolerant
  cases hp : prim inj (.unlink p) e with
  | mk fst snd =>
      have hsnd : snd.notifs = e.notifs := by
        have h := notifs_prim inj (.unlink p) e
        rw [hp] at h
        exact h
      cases fst with
      | ok v => exact hsnd
      | error err => exact notifs_ite _ _ _ hsnd hsnd

theorem notifs_copyAtomic (inj : Nat → Option JsErr) (sfx : String) (src dst : FsPath)
    (e : Eff) : ((copyFileAtomicWithRetry inj sfx src dst e).2).notifs = e.notifs := by
  unfold copyFileAtomicWithRetry
  split
  next err e1 heq1 =>
      have h := notifs_withRetry "copyFile(tmp)"
        (fun e0 => discardRet (prim inj (.copy src (tmpName dst sfx)) e0)) 3 50 e
        (fun e0 => notifs_discardRet_prim inj _ e0)
      rw [heq1] at h
      exact h
  next v e1 heq1 =>
      have he1 : e1.notifs = e.notifs := by
        have h := notifs_withRetry "copyFile(tmp)"
          (fun e0 => discardRet (prim inj (.copy src (tmpName dst sfx)) e0)) 3 50 e
          (fun e0 => notifs_discardRet_prim inj _ e0)
        rw [heq1] at h
        exact h
      have he2 : ((withRetry "removeExistingTarget" (fun e0 => unlinkTolerant inj dst e0)
          sleepEff 2 30 e1).2).notifs = e.notifs := by
        rw [notifs_withRetry _ _ 2 30 e1 (fun e0 => notifs_unlinkTolerant inj dst e0)]
        exact he1
      split
      next err e3 heq3 =>
          have h := notifs_withRetry "rename(tmp->dst)"
            (fun e0 => discardRet (prim inj (.rename (tmpName dst sfx) dst) e0)) 3 50
            ((withRetry "removeExistingTarget" (fun e0 => unlinkTolerant inj dst e0)
              sleepEff 2 30 e1).2)
            (fun e0 => notifs_discardRet_prim inj _ e0)
          rw [heq3] at h
          rw [h]
          exact he2
      next v3 e3 heq3 =>
          have he3 : e3.notifs = e.notifs := by
            have h := notifs_withRetry "rename(tmp->dst)"
              (fun e0 => discardRet (prim inj (.rename (tmpName dst sfx) dst) e0)) 3 50
              ((withRetry "removeExistingTarget" (fun e0 => unlinkTolerant inj dst e0)
                sleepEff 2 30 e1).2)
              (fun e0 => notifs_discardRet_prim inj _ e0)
            rw [heq3] at h
            rw [h]
            exact he2
          show ((prim inj (.unlink (tmpName dst sfx)) e3).2).notifs = e.notifs
          rw [notifs_prim]
          exact he3

theorem notifs_unlinkWithRetry (inj : Nat → Option JsErr) (p : FsPath) (e : Eff) :
    ((unlinkWithRetry inj p e).2).notifs = e.notifs :=
  notifs_withRetry _ _ 3 50 e (fun e0 => notifs_discardRet_prim inj _ e0)

theorem notifs_doCopy (inj : Nat → Option JsErr) (sfx : String) (fp tp : FsPath)
    (rel : List String) (e : Eff) : ((doCopy inj sfx fp tp rel e).2).notifs = e.notifs := by
  unfold doCopy
  cases hc : copyFileAtomicWithRetry inj sfx fp tp e with
  | mk fst snd =>
      have hsnd : snd.notifs = e.notifs := by
        have h := notifs_copyAtomic inj sfx fp tp e
        rw [hc] at h
        exact h
      cases fst <;> exact hsnd

theorem notifs_copyBranch (inj : Nat → Option JsErr) (sfx : String) (fp tp tsd : FsPath)
    (rel : List String) (e : Eff) :
    ((copyBranch inj sfx fp tp tsd rel e).2).notifs = e.notifs := by
  unfold copyBranch
  split
  next err e1 heq1 =>
      have h := notifs_prim inj (.mkdir tsd) e
      rw [heq1] at h
      exact h
  next v1 e1 heq1 =>
      have he1 : e1.notifs = e.notifs := by
        have h := notifs_prim inj (.mkdir tsd) e
        rw [heq1] at h
        exact h
      split
      next err e2 heq2 =>
          have he2 : e2.notifs = e.notifs := by
            have h := notifs_prim inj (.stat fp) e1
            rw [heq2] at h
            rw [h]
            exact he1
          split
          · exact he2
          · exact he2
      next sret e2 heq2 =>
          have he2 : e2.notifs = e.notifs := by
            have h := notifs_prim inj (.stat fp) e1
            rw [heq2] at h
            rw [h]
            exact he1
          split
          next tret e3 heq3 =>
              have he3 : e3.notifs = e.notifs := by
                have h := notifs_prim inj (.stat tp) e2
                rw [heq3] at h
                rw [h]
                exact he2
              split
              · exact he3
              · rw [notifs_doCopy]
                exact he3
          next err e3 heq3 =>
              have he3 : e3.notifs = e.notifs := by
                have h := notifs_prim inj (.stat tp) e2
                rw [heq3] at h
                rw [h]
                exact he2
              split
              · rw [notifs_doCopy]
                exact he3
              · rw [notifs_doCopy]
                exact he3

theorem notifs_deleteBranch (inj : Nat → Option JsErr) (ad : Bool) (tp : FsPath)
    (rel : List String) (e : Eff) :
    ((deleteBranch inj ad tp rel e).2).notifs = e.notifs := by
  unfold deleteBranch
  split
  · rfl
  · split
    next v eu heq =>
        have h := notifs_unlinkWithRetry inj tp e
        rw [heq] at h
        exact h
    next err eu heq =>
        have heu : eu.notifs = e.notifs := by
          have h := notifs_unlinkWithRetry inj tp e
          rw [heq] at h
          exact h
        split
        · exact heu
        · exact heu

/-! ## Helper lemmas: `handleFileSync` control flow -/

theorem handleFileSync_ineligible (sd td : FsPath) (exts : List String) (ad sif : Bool)
    (sfx : String) (inj : Nat → Option JsErr) (fp : FsPath) (evt : EventType) (e : Eff)
    (h : eligibleExt exts sif fp = false) :
    handleFileSync sd td exts ad sif sfx inj fp evt e = e := by
  unfold handleFileSync
  by_cases hA : exts.contains (fileExtOf fp) = true
  · have hB : (fileExtOf fp == ".import" && !sif) = true := by
      unfold eligibleExt at h
      rw [hA] at h
      simpa using h
    rw [hA, hB]
    simp
  · have hA2 : exts.contains (fileExtOf fp) = false := by simpa using hA
    rw [hA2]
    simp

theorem handleFileSync_blocked (sd td : FsPath) (exts : List String) (ad sif : Bool)
    (sfx : String) (inj : Nat → Option JsErr) (fp : FsPath) (evt : EventType) (e : Eff)
    (h : eligibleExt exts sif fp = true)
    (hin : isInsideCheck td (resolveSegs (td ++ relSegs sd fp)) = false) :
    handleFileSync sd td exts ad sif sfx inj fp evt e =
      { e with log := e.log ++ [securityMsg (relSegs sd fp)],
               notifs := e.notifs ++ [securityNotif] } := by
  unfold handleFileSync
  unfold eligibleExt at h
  obtain ⟨hA, hB⟩ := Bool.and_eq_true_iff.mp h
  have hB2 : (fileExtOf fp == ".import" && !sif) = false := by
    cases hx : (fileExtOf fp == ".import" && !sif) with
    | false => rfl
    | true => rw [hx] at hB; simp at hB
  rw [hA, hB2, hin]
  simp

theorem handleFileSync_inside (sd td : FsPath) (exts : List String) (ad sif : Bool)
    (sfx : String) (inj : Nat → Option JsErr) (fp : FsPath) (evt : EventType) (e : Eff)
    (h : eligibleExt exts sif fp = true)
    (hin : isInsideCheck td (resolveSegs (td ++ relSegs sd fp)) = true) :
    handleFileSync sd td exts ad sif sfx inj fp evt e =
      afterBranch (relSegs sd fp)
        (match evt with
         | .add => copyBranch inj sfx fp
             (resolveSegs (td ++ relSegs sd fp))
             (resolveSegs (td ++ relSegs sd fp)).dropLast
             (relSegs sd fp) e
         | .change => copyBranch inj sfx fp
             (resolveSegs (td ++ relSegs sd fp))
             (resolveSegs (td ++ relSegs sd fp)).dropLast
             (relSegs sd fp) e
         | .unlink => deleteBranch inj ad
             (resolveSegs (td ++ relSegs sd fp))
             (relSegs sd fp) e) := by
  unfold handleFileSync
  unfold eligibleExt at h
  obtain ⟨hA, hB⟩ := Bool.and_eq_true_iff.mp h
  have hB2 : (fileExtOf fp == ".import" && !sif) = false := by
    cases hx : (fileExtOf fp == ".import" && !sif) with
    | false => rfl
    | true => rw [hx] at hB; simp at hB
  rw [hA, hB2, hin]
  simp

/-! ## Claim theorems -/

/-- Claim C1: for every sync operation whose computed target path (the
source path taken relative to `sourceRoot`, joined onto `targetRoot`, and
resolved to absolute form) is neither equal to `targetRoot` nor a strict
descendant of it (equivalently: `targetRoot` is not a segment-prefix of it),
the engine performs no filesystem write, create or delete for that operation
— the filesystem state and the action trace are untouched — and, for an
operation that reaches the check (one passing the extension gate), it emits
the security-block log line and terminates processing of the operation,
rejecting the path rather than clamping it into the target root. -/
theorem C1_security_rejects_outside
    (sd td fp : FsPath) (exts : List String) (ad sif : Bool) (sfx : String)
    (inj : Nat → Option JsErr) (evt : EventType) (e : Eff)
    (htd : WfPath td) (hfp : WfPath fp)
    (hout : List.isPrefixOf td (resolveSegs (td ++ relSegs sd fp)) = false) :
    (handleFileSync sd td exts ad sif sfx inj fp evt e).fs = e.fs ∧
    (handleFileSync sd td exts ad sif sfx inj fp evt e).trace = e.trace ∧
    (eligibleExt exts sif fp = true →
      (handleFileSync sd td exts ad sif sfx inj fp evt e).log =
        e.log ++ [securityMsg (relSegs sd fp)] ∧
      (handleFileSync sd td exts ad sif sfx inj fp evt e).notifs =
        e.notifs ++ [securityNotif]) := by
  by_cases helig : eligibleExt exts sif fp = true
  · have hwtp : WfPath (resolveSegs (td ++ relSegs sd fp)) := wf_targetPath htd hfp
    have hin : isInsideCheck td (resolveSegs (td ++ relSegs sd fp)) = false := by
      cases hI : isInsideCheck td (resolveSegs (td ++ relSegs sd fp)) with
      | false => rfl
      | true =>
          exfalso
          have hpre := (prefixOf_iff _ _).mpr (insideCheck_sound htd hwtp hI)
          rw [hout] at hpre
          exact Bool.false_ne_true hpre
    rw [handleFileSync_blocked sd td exts ad sif sfx inj fp evt e helig hin]
    exact ⟨rfl, rfl, fun _ => ⟨rfl, rfl⟩⟩
  · have helig2 : eligibleExt exts sif fp = false := by simpa using helig
    rw [handleFileSync_ineligible sd td exts ad sif sfx inj fp evt e helig2]
    refine ⟨rfl, rfl, fun h2 => absurd h2 ?_⟩
    simp [helig2]

/-- Witness for C1 at a concrete traversal: the source path `/escape.gd`
relative to source root `/s` resolves to `/escape.gd`, outside target root
`/t`; no filesystem action happens and the security log line and
notification are emitted. -/
theorem C1_security_rejects_outside_witness :
    (handleFileSync ["s"] ["t"] [".gd"] false true "x" injNone ["escape.gd"] .add eBase).trace =
      eBase.trace ∧
    (handleFileSync ["s"] ["t"] [".gd"] false true "x" injNone ["escape.gd"] .add eBase).log =
      eBase.log ++ [securityMsg (relSegs ["s"] ["escape.gd"])] :=
  ⟨(C1_security_rejects_outside ["s"] ["t"] ["escape.gd"] [".gd"] false true "x" injNone
      .add eBase (by decide) (by decide) (by decide)).2.1,
   ((C1_security_rejects_outside ["s"] ["t"] ["escape.gd"] [".gd"] false true "x" injNone
      .add eBase (by decide) (by decide) (by decide)).2.2 (by decide)).1⟩

/-- Claim C3: a `removed` operation processed while `allowDeletion` is false
leaves the target tree entirely unchanged — no filesystem action of any kind
is attempted, in particular no deletion — and, for an operation that reaches
the deletion logic (eligible and inside the target root), the
`Deletion skipped (disabled)` log line is emitted and nothing else
(no notification). -/
theorem C3_deletion_disabled_is_noop
    (sd td fp : FsPath) (exts : List String) (sif : Bool) (sfx : String)
    (inj : Nat → Option JsErr) (e : Eff) :
    (handleFileSync sd td exts false sif sfx inj fp .unlink e).fs = e.fs ∧
    (handleFileSync sd td exts false sif sfx inj fp .unlink e).trace = e.trace ∧
    (handleFileSync sd td exts false sif sfx inj fp .unlink e).calls = e.calls ∧
    (handleFileSync sd td exts false sif sfx inj fp .unlink e).delays = e.delays ∧
    (eligibleExt exts sif fp = true →
      isInsideCheck td (resolveSegs (td ++ relSegs sd fp)) = true →
      (handleFileSync sd td exts false sif sfx inj fp .unlink e).log =
        e.log ++ ["Deletion skipped (disabled): " ++ renderRel (relSegs sd fp)] ∧
      (handleFileSync sd td exts false sif sfx inj fp .unlink e).notifs = e.notifs) := by
  by_cases helig : eligibleExt exts sif fp = true
  · cases hin : isInsideCheck td (resolveSegs (td ++ relSegs sd fp)) with
    | true =>
        rw [handleFileSync_inside sd td exts false sif sfx inj fp .unlink e helig hin]
        exact ⟨rfl, rfl, rfl, rfl, fun _ _ => ⟨rfl, rfl⟩⟩
    | false =>
        rw [handleFileSync_blocked sd td exts false sif sfx inj fp .unlink e helig hin]
        refine ⟨rfl, rfl, rfl, rfl, fun _ h2 => absurd h2 ?_⟩
        simp [hin]
  · have helig2 : eligibleExt exts sif fp = false := by simpa using helig
    rw [handleFileSync_ineligible sd td exts false sif sfx inj fp .unlink e helig2]
    refine ⟨rfl, rfl, rfl, rfl, fun h1 _ => absurd h1 ?_⟩
    simp [helig2]

/-- Witness for C3: deleting `/s/a.gd` with deletion disabled leaves the
trace empty and logs the skip line. -/
theorem C3_deletion_disabled_is_noop_witness :
    (handleFileSync ["s"] ["t"] [".gd"] false true "x" injNone ["s", "a.gd"] .unlink eBase).trace =
      eBase.trace ∧
    (handleFileSync ["s"] ["t"] [".gd"] false true "x" injNone ["s", "a.gd"] .unlink eBase).log =
      eBase.log ++ ["Deletion skipped (disabled): " ++ renderRel (relSegs ["s"] ["s", "a.gd"])] :=
  ⟨(C3_deletion_disabled_is_noop ["s"] ["t"] ["s", "a.gd"] [".gd"] true "x" injNone eBase).2.1,
   ((C3_deletion_disabled_is_noop ["s"] ["t"] ["s", "a.gd"] [".gd"] true "x" injNone
      eBase).2.2.2.2 (by decide) (by decide)).1⟩

/-- `afterBranch` does not touch notifications. -/
theorem notifs_afterBranch (rel : List String) (r : Except JsErr Unit × Eff)
    (N : List String) (h : (r.2).notifs = N) : (afterBranch rel r).notifs = N := by
  unfold afterBranch
  cases r with
  | mk f e1 => cases f <;> exact h

/-- Claim C7 (code bug): a `removed` operation with `allowDeletion = true`
whose target file is already absent is *not* tolerated as success.
`fs.unlink` fails with `ENOENT`; `withRetry` wraps it in a fresh `Error`
without a `code` property (last conjunct), so the
`getErrorCode(err) !== 'ENOENT'` tolerance check in `handleFileSync` can
never match and the operation is logged as an error.  The target tree is
still unchanged. -/
theorem C7_absent_target_deletion_logs_error :
    (handleFileSync ["s"] ["t"] [".gd"] true true "x" injNone ["s", "a.gd"] .unlink eBase).log =
      ["Error processing file a.gd: unlink failed after retries: ENOENT: unlink"] ∧
    (handleFileSync ["s"] ["t"] [".gd"] true true "x" injNone ["s", "a.gd"] .unlink eBase).fs =
      eBase.fs ∧
    (handleFileSync ["s"] ["t"] [".gd"] true true "x" injNone ["s", "a.gd"] .unlink eBase).trace =
      [.unlink ["t", "a.gd"]] ∧
    getErrorCode (wrapErr "unlink" (enoent "unlink")) = none := by decide

/-- Counterexample to claim C8 as stated: a security violation *does*
produce a blocking user-visible notification
(`vscode.window.showErrorMessage`, line 231 of the source), so it does not
stay local to the log stream. -/
theorem C8_counterexample_security_popup :
    (handleFileSync ["s"] ["t"] [".gd"] false true "x" injNone ["evil.gd"] .add eBase).notifs =
      ["Godot Sync: Blocked writing outside of target directory."] := by decide

/-- Claim C8 as amended: per-file copy and delete failures stay local to the
log stream — once an operation passes the containment check, `handleFileSync`
never emits a user-visible notification, whatever faults its filesystem
calls produce — and an operation filtered out by the extension gate emits
none either; a security violation, however, emits exactly one user-visible
error notification in addition to its log line. -/
theorem C8_per_file_failures_log_only
    (sd td fp : FsPath) (exts : List String) (ad sif : Bool) (sfx : String)
    (inj : Nat → Option JsErr) (evt : EventType) (e : Eff) :
    (eligibleExt exts sif fp = false →
      (handleFileSync sd td exts ad sif sfx inj fp evt e).notifs = e.notifs) ∧
    (eligibleExt exts sif fp = true →
      isInsideCheck td (resolveSegs (td ++ relSegs sd fp)) = false →
      (handleFileSync sd td exts ad sif sfx inj fp evt e).notifs =
        e.notifs ++ [securityNotif]) ∧
    (isInsideCheck td (resolveSegs (td ++ relSegs sd fp)) = true →
      (handleFileSync sd td exts ad sif sfx inj fp evt e).notifs = e.notifs) := by
  refine ⟨?_, ?_, ?_⟩
  · intro h
    rw [handleFileSync_ineligible sd td exts ad sif sfx inj fp evt e h]
  · intro h hin
    rw [handleFileSync_blocked sd td exts ad sif sfx inj fp evt e h hin]
  · intro hin
    by_cases helig : eligibleExt exts sif fp = true
    · rw [handleFileSync_inside sd td exts ad sif sfx inj fp evt e helig hin]
      cases evt with
      | add => exact notifs_afterBranch _ _ _ (notifs_copyBranch inj sfx fp _ _ _ e)
      | change => exact notifs_afterBranch _ _ _ (notifs_copyBranch inj sfx fp _ _ _ e)
      | unlink => exact notifs_afterBranch _ _ _ (notifs_deleteBranch inj ad _ _ e)
    · have helig2 : eligibleExt exts sif fp = false := by simpa using helig
      rw [handleFileSync_ineligible sd td exts ad sif sfx inj fp evt e helig2]

/-- Witness for the amended C8: a copy pipeline with an injected
non-transient fault is logged but produces no notification. -/
theorem C8_per_file_failures_log_only_witness :
    (handleFileSync ["s"] ["t"] [".gd"] false true "T" injRenameNoSpace ["s", "a.gd"]
      .add eSrcOnly).notifs = eSrcOnly.notifs :=
  (C8_per_file_failures_log_only ["s"] ["t"] ["s", "a.gd"] [".gd"] false true "T"
    injRenameNoSpace .add eSrcOnly).2.2 (by decide)

/-- Claim C2: for a created/modified operation on an eligible file under the
source root where both the source file and the target file exist, if the
target's modification time is at least the source's (ties included), the
engine performs no copy: the file table is untouched (only the recursive
`mkdir` of the already-needed target parent runs, plus two `stat`s), the
`Skipped (destination is newer)` log line is emitted, no notification is
produced — and when the target parent directories already exist the
filesystem is entirely unchanged, so synchronizing an already-up-to-date
tree produces zero write operations. -/
theorem C2_destination_newer_skips_copy
    (sd td rest : FsPath) (exts : List String) (ad sif : Bool) (sfx : String)
    (evt : EventType) (e : Eff) (s t : SFile)
    (htd : WfPath td) (hrest : WfPath rest)
    (htdne : td ≠ []) (hrestne : rest ≠ [])
    (hevt : evt = .add ∨ evt = .change)
    (helig : eligibleExt exts sif (sd ++ rest) = true)
    (hsrc : findFile e.fs (sd ++ rest) = some s)
    (htgt : findFile e.fs (td ++ rest) = some t)
    (hmt : s.mtimeMs ≤ t.mtimeMs) :
    (handleFileSync sd td exts ad sif sfx injNone (sd ++ rest) evt e).fs.files = e.fs.files ∧
    (handleFileSync sd td exts ad sif sfx injNone (sd ++ rest) evt e).trace =
      e.trace ++ [.mkdir ((td ++ rest).dropLast), .stat (sd ++ rest), .stat (td ++ rest)] ∧
    (handleFileSync sd td exts ad sif sfx injNone (sd ++ rest) evt e).log =
      e.log ++ ["Skipped (destination is newer): " ++ renderRel rest] ∧
    (handleFileSync sd td exts ad sif sfx injNone (sd ++ rest) evt e).notifs = e.notifs ∧
    ((∀ d ∈ dirPrefixes ((td ++ rest).dropLast), e.fs.dirs.contains d = true) →
      (handleFileSync sd td exts ad sif sfx injNone (sd ++ rest) evt e).fs = e.fs) := by
  have hnd1 : ∀ q ∈ td, q ≠ ".." ∧ q ≠ "." :=
    fun q hq => ⟨(htd q hq).2.2.1, (htd q hq).2.1⟩
  have hnd2 : ∀ q ∈ rest, q ≠ ".." ∧ q ≠ "." :=
    fun q hq => ⟨(hrest q hq).2.2.1, (hrest q hq).2.1⟩
  have htp : resolveSegs (td ++ relSegs sd (sd ++ rest)) = td ++ rest :=
    targetPath_under sd td rest hnd1 hnd2
  have hrel : relSegs sd (sd ++ rest) = rest := relSegs_self_append sd rest
  have hin : isInsideCheck td (resolveSegs (td ++ relSegs sd (sd ++ rest))) = true := by
    rw [htp]
    exact insideCheck_of_append htdne hrestne
  have hsrc1 : findFile (addDirs e.fs ((td ++ rest).dropLast)) (sd ++ rest) = some s := by
    rw [findFile_addDirs]
    exact hsrc
  have htgt1 : findFile (addDirs e.fs ((td ++ rest).dropLast)) (td ++ rest) = some t := by
    rw [findFile_addDirs]
    exact htgt
  have hbranch : copyBranch injNone sfx (sd ++ rest) (td ++ rest) ((td ++ rest).dropLast) rest e = (.ok (), { e with calls := e.calls + 1 + 1 + 1, trace := e.trace ++ [.mkdir ((td ++ rest).dropLast)] ++ [.stat (sd ++ rest)] ++ [.stat (td ++ rest)], fs := addDirs e.fs ((td ++ rest).dropLast), log := e.log ++ ["Skipped (destination is newer): " ++ renderRel rest] }) := by
    simp only [copyBranch, prim, injNone, fsSem, hsrc1, htgt1, retMtime, hmt, if_true]
  have htp2 : resolveSegs (td ++ rest) = td ++ rest := by
    have h0 := htp
    rw [hrel] at h0
    exact h0
  have hmain : handleFileSync sd td exts ad sif sfx injNone (sd ++ rest) evt e = { e with calls := e.calls + 1 + 1 + 1, trace := e.trace ++ [.mkdir ((td ++ rest).dropLast)] ++ [.stat (sd ++ rest)] ++ [.stat (td ++ rest)], fs := addDirs e.fs ((td ++ rest).dropLast), log := e.log ++ ["Skipped (destination is newer): " ++ renderRel rest] } := by
    rcases hevt with h | h <;> subst h <;>
      rw [handleFileSync_inside sd td exts ad sif sfx injNone (sd ++ rest) _ e helig hin] <;>
      simp only [hrel, htp2] <;> rw [hbranch] <;> rfl
  rw [hmain]
  refine ⟨rfl, by simp [List.append_assoc], rfl, rfl, fun hdirs => ?_⟩
  exact addDirs_of_present hdirs

/-- Witness for C2: an up-to-date target `/t/a.gd` (mtime 9 ≥ source mtime 5)
is not copied over; only `mkdir` and the two `stat`s are attempted and the
skip line is logged. -/
theorem C2_destination_newer_skips_copy_witness :
    (handleFileSync ["s"] ["t"] [".gd"] false true "x" injNone (["s"] ++ ["a.gd"])
      .change eDestNewer).fs = eDestNewer.fs ∧
    (handleFileSync ["s"] ["t"] [".gd"] false true "x" injNone (["s"] ++ ["a.gd"])
      .change eDestNewer).log =
      eDestNewer.log ++ ["Skipped (destination is newer): " ++ renderRel ["a.gd"]] :=
  ⟨(C2_destination_newer_skips_copy ["s"] ["t"] ["a.gd"] [".gd"] false true "x" .change
      eDestNewer { mtimeMs := 5, content := "new" } { mtimeMs := 9, content := "old" }
      (by decide) (by decide) (by decide) (by decide) (Or.inr rfl) (by decide) (by decide)
      (by decide) (by decide)).2.2.2.2 (by decide),
   (C2_destination_newer_skips_copy ["s"] ["t"] ["a.gd"] [".gd"] false true "x" .change
      eDestNewer { mtimeMs := 5, content := "new" } { mtimeMs := 9, content := "old" }
      (by decide) (by decide) (by decide) (by decide) (Or.inr rfl) (by decide) (by decide)
      (by decide) (by decide)).2.2.1⟩

/-- A retried action that succeeds on its first invocation: `withRetry`
returns that success. -/
theorem withRetry_first_ok {σ α : Type} (opName : String) (fn : σ → Except JsErr α × σ)
    (sleep : Nat → σ → σ) (retries base : Nat) (s : σ) (v : α) (s1 : σ)
    (h : fn s = (.ok v, s1)) :
    withRetry opName fn sleep retries base s = (.ok v, s1) := by
  unfold withRetry
  simp only [retryGo, h]

/-- A retried action whose first invocation fails non-transiently:
`withRetry` throws the wrapping error at once. -/
theorem withRetry_first_err {σ α : Type} (opName : String) (fn : σ → Except JsErr α × σ)
    (sleep : Nat → σ → σ) (retries base : Nat) (s : σ) (err : JsErr) (s1 : σ)
    (h : fn s = (.error err, s1)) (ht : isTransient err = false) :
    withRetry opName fn sleep retries base s = (.error (wrapErr opName err), s1) := by
  unfold withRetry
  simp only [retryGo, h, ht, Bool.false_eq_true, if_false]

/-- Counterexample to claim C6 as stated: when the final rename keeps
failing (persistent `EBUSY`, exhausting the retries), the error propagates
to the caller, the temporary file is *not* removed — it is still present and
no `unlink` of it was even attempted — and nothing about it is logged. -/
theorem C6_counterexample_rename_failure_leaks_tmp :
    (copyFileAtomicWithRetry injRenameBusy "T" ["s", "a.gd"] ["t", "a.gd"] eSrcOnly).1 =
      .error (wrapErr "rename(tmp->dst)" busyErr) ∧
    findFile (copyFileAtomicWithRetry injRenameBusy "T" ["s", "a.gd"] ["t", "a.gd"]
        eSrcOnly).2.fs (tmpName ["t", "a.gd"] "T") =
      some { mtimeMs := 0, content := "A" } ∧
    ((copyFileAtomicWithRetry injRenameBusy "T" ["s", "a.gd"] ["t", "a.gd"]
        eSrcOnly).2.trace.count (FsAction.unlink (tmpName ["t", "a.gd"] "T"))) = 0 ∧
    (copyFileAtomicWithRetry injRenameBusy "T" ["s", "a.gd"] ["t", "a.gd"] eSrcOnly).2.log =
      eSrcOnly.log := ⟨rfl, rfl, rfl, rfl⟩

/-- Claim C6 as amended: the temporary file is removed (best-effort, with a
failure of the removal ignored and not logged) only *after a successful
rename*; on a failure of the rename step the wrapping error propagates to
the caller and the temporary file is left in place, with no removal
attempt.  Part one: fault-free run — the stray-cleanup `unlink` of the
temporary file is attempted, its `ENOENT` failure is swallowed without a log
line, the temporary file is gone and the destination holds the copied
content.  Part two: a non-transient rename failure — the wrapped error is
returned, no `unlink` of the temporary file is attempted, and the temporary
file is still present. -/
theorem C6_tmp_cleanup_only_after_rename (sfx : String) (src dst : FsPath) (e : Eff)
    (f : SFile) :
    (∀ inj : Nat → Option JsErr, (∀ n, inj n = none) → findFile e.fs src = some f →
       (copyFileAtomicWithRetry inj sfx src dst e).1 = .ok () ∧
       (copyFileAtomicWithRetry inj sfx src dst e).2.trace =
         e.trace ++ [.copy src (tmpName dst sfx), .unlink dst,
           .rename (tmpName dst sfx) dst, .unlink (tmpName dst sfx)] ∧
       (copyFileAtomicWithRetry inj sfx src dst e).2.log = e.log ∧
       findFile (copyFileAtomicWithRetry inj sfx src dst e).2.fs (tmpName dst sfx) = none ∧
       findFile (copyFileAtomicWithRetry inj sfx src dst e).2.fs dst =
         some { mtimeMs := e.now, content := f.content }) ∧
    (∀ (inj : Nat → Option JsErr) (errR : JsErr), isTransient errR = false →
       inj e.calls = none → inj (e.calls + 1) = none → inj (e.calls + 2) = some errR →
       findFile e.fs src = some f →
       (copyFileAtomicWithRetry inj sfx src dst e).1 =
         .error (wrapErr "rename(tmp->dst)" errR) ∧
       (copyFileAtomicWithRetry inj sfx src dst e).2.trace =
         e.trace ++ [.copy src (tmpName dst sfx), .unlink dst, .rename (tmpName dst sfx) dst] ∧
       findFile (copyFileAtomicWithRetry inj sfx src dst e).2.fs (tmpName dst sfx) =
         some { mtimeMs := e.now, content := f.content }) := by
  have htmp := tmpName_ne dst sfx
  constructor
  · intro inj hinj hsrc
    have p1 : prim inj (.copy src (tmpName dst sfx)) e = (.ok .unit, { e with calls := e.calls + 1, trace := e.trace ++ [.copy src (tmpName dst sfx)], fs := setFile e.fs (tmpName dst sfx) { mtimeMs := e.now, content := f.content } }) := by
      simp only [prim, hinj, fsSem, hsrc]
    have f1 : discardRet (prim inj (.copy src (tmpName dst sfx)) e) = (.ok (), { e with calls := e.calls + 1, trace := e.trace ++ [.copy src (tmpName dst sfx)], fs := setFile e.fs (tmpName dst sfx) { mtimeMs := e.now, content := f.content } }) := by
      rw [p1]
      rfl
    have h1 := withRetry_first_ok "copyFile(tmp)"
      (fun e0 => discardRet (prim inj (.copy src (tmpName dst sfx)) e0)) sleepEff 3 50 e () _ f1
    -- abbreviate the state after the copy
    generalize hE1 : ({ e with calls := e.calls + 1, trace := e.trace ++ [.copy src (tmpName dst sfx)], fs := setFile e.fs (tmpName dst sfx) { mtimeMs := e.now, content := f.content } } : Eff) = E1 at h1
    have hE1fs : E1.fs = setFile e.fs (tmpName dst sfx) { mtimeMs := e.now, content := f.content } := by rw [← hE1]
    have hE1calls : E1.calls = e.calls + 1 := by rw [← hE1]
    have hE1trace : E1.trace = e.trace ++ [.copy src (tmpName dst sfx)] := by rw [← hE1]
    have hE1log : E1.log = e.log := by rw [← hE1]
    have hfs1tmp : findFile E1.fs (tmpName dst sfx) = some { mtimeMs := e.now, content := f.content } := by
      rw [hE1fs]
      exact findFile_setFile_self _ _ _
    have hfs1dst : findFile E1.fs dst = findFile e.fs dst := by
      rw [hE1fs]
      exact findFile_setFile_other _ _ _ _ (Ne.symm htmp)
    -- the removeExistingTarget step: one tolerated unlink, whatever the
    -- destination's prior state
    obtain ⟨E2, h2, hfs2tmp, hfs2calls, hfs2trace, hfs2log⟩ :
        ∃ E2 : Eff, withRetry "removeExistingTarget" (fun e0 => unlinkTolerant inj dst e0)
            sleepEff 2 30 E1 = (.ok (), E2) ∧
          findFile E2.fs (tmpName dst sfx) =
            some { mtimeMs := e.now, content := f.content } ∧
          E2.calls = e.calls + 2 ∧
          E2.trace = e.trace ++ [.copy src (tmpName dst sfx)] ++ [.unlink dst] ∧
          E2.log = e.log := by
      cases hdst : findFile e.fs dst with
      | some g =>
          refine ⟨{ E1 with calls := E1.calls + 1, trace := E1.trace ++ [.unlink dst], fs := removeFile E1.fs dst }, ?_, ?_, ?_, ?_, ?_⟩
          · apply withRetry_first_ok
            simp only [unlinkTolerant, prim, hinj, fsSem]
            rw [show findFile E1.fs dst = some g from hfs1dst.trans hdst]
          · show findFile (removeFile E1.fs dst) (tmpName dst sfx) = _
            rw [findFile_removeFile_other _ _ _ htmp]
            exact hfs1tmp
          · simp only [hE1calls]
          · simp only [hE1trace]
          · simp only [hE1log]
      | none =>
          refine ⟨{ E1 with calls := E1.calls + 1, trace := E1.trace ++ [.unlink dst] }, ?_, ?_, ?_, ?_, ?_⟩
          · apply withRetry_first_ok
            simp only [unlinkTolerant, prim, hinj, fsSem]
            rw [show findFile E1.fs dst = none from hfs1dst.trans hdst]
            simp [getErrorCode, enoent]
          · exact hfs1tmp
          · simp only [hE1calls]
          · simp only [hE1trace]
          · simp only [hE1log]
    -- the rename step succeeds
    have p3 : prim inj (.rename (tmpName dst sfx) dst) E2 = (.ok .unit, { E2 with calls := E2.calls + 1, trace := E2.trace ++ [.rename (tmpName dst sfx) dst], fs := setFile (removeFile E2.fs (tmpName dst sfx)) dst { mtimeMs := e.now, content := f.content } }) := by
      simp only [prim, hinj, fsSem, hfs2tmp]
    have f3 : discardRet (prim inj (.rename (tmpName dst sfx) dst) E2) = (.ok (), { E2 with calls := E2.calls + 1, trace := E2.trace ++ [.rename (tmpName dst sfx) dst], fs := setFile (removeFile E2.fs (tmpName dst sfx)) dst { mtimeMs := e.now, content := f.content } }) := by
      rw [p3]
      rfl
    have h3 := withRetry_first_ok "rename(tmp->dst)"
      (fun e0 => discardRet (prim inj (.rename (tmpName dst sfx) dst) e0)) sleepEff 3 50 E2 () _ f3
    -- assemble: unfold the atomic copy along the three computed steps
    have hmain : copyFileAtomicWithRetry inj sfx src dst e = (.ok (), (prim inj (.unlink (tmpName dst sfx)) { E2 with calls := E2.calls + 1, trace := E2.trace ++ [.rename (tmpName dst sfx) dst], fs := setFile (removeFile E2.fs (tmpName dst sfx)) dst { mtimeMs := e.now, content := f.content } }).2) := by
      unfold copyFileAtomicWithRetry
      rw [h1]
      simp only
      rw [h2, h3]
    have p4 : (prim inj (.unlink (tmpName dst sfx)) { E2 with calls := E2.calls + 1, trace := E2.trace ++ [.rename (tmpName dst sfx) dst], fs := setFile (removeFile E2.fs (tmpName dst sfx)) dst { mtimeMs := e.now, content := f.content } }).2 = { E2 with calls := E2.calls + 1 + 1, trace := E2.trace ++ [.rename (tmpName dst sfx) dst] ++ [.unlink (tmpName dst sfx)], fs := setFile (removeFile E2.fs (tmpName dst sfx)) dst { mtimeMs := e.now, content := f.content } } := by
      simp only [prim, hinj, fsSem]
      rw [show findFile (setFile (removeFile E2.fs (tmpName dst sfx)) dst { mtimeMs := e.now, content := f.content }) (tmpName dst sfx) = none from by
        rw [findFile_setFile_other _ _ _ _ htmp]
        exact findFile_removeFile_self _ _]
    rw [hmain, p4]
    refine ⟨rfl, ?_, ?_, ?_, ?_⟩
    · show E2.trace ++ [.rename (tmpName dst sfx) dst] ++ [.unlink (tmpName dst sfx)] = _
      rw [hfs2trace]
      simp [List.append_assoc]
    · show E2.log = e.log
      exact hfs2log
    · show findFile (setFile (removeFile E2.fs (tmpName dst sfx)) dst { mtimeMs := e.now, content := f.content }) (tmpName dst sfx) = none
      rw [findFile_setFile_other _ _ _ _ htmp]
      exact findFile_removeFile_self _ _
    · show findFile (setFile (removeFile E2.fs (tmpName dst sfx)) dst { mtimeMs := e.now, content := f.content }) dst = some { mtimeMs := e.now, content := f.content }
      exact findFile_setFile_self _ _ _
  · intro inj errR htr hi0 hi1 hi2 hsrc
    have p1 : prim inj (.copy src (tmpName dst sfx)) e = (.ok .unit, { e with calls := e.calls + 1, trace := e.trace ++ [.copy src (tmpName dst sfx)], fs := setFile e.fs (tmpName dst sfx) { mtimeMs := e.now, content := f.content } }) := by
      simp only [prim, hi0, fsSem, hsrc]
    have f1 : discardRet (prim inj (.copy src (tmpName dst sfx)) e) = (.ok (), { e with calls := e.calls + 1, trace := e.trace ++ [.copy src (tmpName dst sfx)], fs := setFile e.fs (tmpName dst sfx) { mtimeMs := e.now, content := f.content } }) := by
      rw [p1]
      rfl
    have h1 := withRetry_first_ok "copyFile(tmp)"
      (fun e0 => discardRet (prim inj (.copy src (tmpName dst sfx)) e0)) sleepEff 3 50 e () _ f1
    generalize hE1 : ({ e with calls := e.calls + 1, trace := e.trace ++ [.copy src (tmpName dst sfx)], fs := setFile e.fs (tmpName dst sfx) { mtimeMs := e.now, content := f.content } } : Eff) = E1 at h1
    have hE1fs : E1.fs = setFile e.fs (tmpName dst sfx) { mtimeMs := e.now, content := f.content } := by rw [← hE1]
    have hE1calls : E1.calls = e.calls + 1 := by rw [← hE1]
    have hE1trace : E1.trace = e.trace ++ [.copy src (tmpName dst sfx)] := by rw [← hE1]
    have hfs1tmp : findFile E1.fs (tmpName dst sfx) = some { mtimeMs := e.now, content := f.content } := by
      rw [hE1fs]
      exact findFile_setFile_self _ _ _
    have hfs1dst : findFile E1.fs dst = findFile e.fs dst := by
      rw [hE1fs]
      exact findFile_setFile_other _ _ _ _ (Ne.symm htmp)
    obtain ⟨E2, h2, hfs2tmp, hfs2calls, hfs2trace⟩ :
        ∃ E2 : Eff, withRetry "removeExistingTarget" (fun e0 => unlinkTolerant inj dst e0)
            sleepEff 2 30 E1 = (.ok (), E2) ∧
          findFile E2.fs (tmpName dst sfx) =
            some { mtimeMs := e.now, content := f.content } ∧
          E2.calls = e.calls + 2 ∧
          E2.trace = e.trace ++ [.copy src (tmpName dst sfx)] ++ [.unlink dst] := by
      cases hdst : findFile e.fs dst with
      | some g =>
          refine ⟨{ E1 with calls := E1.calls + 1, trace := E1.trace ++ [.unlink dst], fs := removeFile E1.fs dst }, ?_, ?_, ?_, ?_⟩
          · apply withRetry_first_ok
            simp only [unlinkTolerant, prim, fsSem, hE1calls, hi1]
            rw [show findFile E1.fs dst = some g from hfs1dst.trans hdst]
          · show findFile (removeFile E1.fs dst) (tmpName dst sfx) = _
            rw [findFile_removeFile_other _ _ _ htmp]
            exact hfs1tmp
          · simp only [hE1calls]
          · simp only [hE1trace]
      | none =>
          refine ⟨{ E1 with calls := E1.calls + 1, trace := E1.trace ++ [.unlink dst] }, ?_, ?_, ?_, ?_⟩
          · apply withRetry_first_ok
            simp only [unlinkTolerant, prim, fsSem, hE1calls, hi1]
            rw [show findFile E1.fs dst = none from hfs1dst.trans hdst]
            simp [getErrorCode, enoent]
          · exact hfs1tmp
          · simp only [hE1calls]
          · simp only [hE1trace]
    -- the rename prim is injected with the non-transient fault
    have p3 : prim inj (.rename (tmpName dst sfx) dst) E2 = (.error errR, { E2 with calls := E2.calls + 1, trace := E2.trace ++ [.rename (tmpName dst sfx) dst] }) := by
      simp only [prim, hfs2calls, hi2]
    have f3 : discardRet (prim inj (.rename (tmpName dst sfx) dst) E2) = (.error errR, { E2 with calls := E2.calls + 1, trace := E2.trace ++ [.rename (tmpName dst sfx) dst] }) := by
      rw [p3]
      rfl
    have h3 := withRetry_first_err "rename(tmp->dst)"
      (fun e0 => discardRet (prim inj (.rename (tmpName dst sfx) dst) e0)) sleepEff 3 50 E2 errR _ f3 htr
    have hmain : copyFileAtomicWithRetry inj sfx src dst e = (.error (wrapErr "rename(tmp->dst)" errR), { E2 with calls := E2.calls + 1, trace := E2.trace ++ [.rename (tmpName dst sfx) dst] }) := by
      unfold copyFileAtomicWithRetry
      rw [h1]
      simp only
      rw [h2, h3]
    rw [hmain]
    refine ⟨rfl, ?_, ?_⟩
    · show E2.trace ++ [.rename (tmpName dst sfx) dst] = _
      rw [hfs2trace]
      simp [List.append_assoc]
    · show findFile E2.fs (tmpName dst sfx) = _
      exact hfs2tmp

/-- Witness for the amended C6: the fault-free atomic copy of `/s/a.gd` onto
`/t/a.gd` attempts the stray-cleanup unlink last, leaves no temporary file,
logs nothing, and lands the content at the destination. -/
theorem C6_tmp_cleanup_only_after_rename_witness :
    (copyFileAtomicWithRetry injNone "T" ["s", "a.gd"] ["t", "a.gd"] eSrcOnly).1 = .ok () ∧
    findFile (copyFileAtomicWithRetry injNone "T" ["s", "a.gd"] ["t", "a.gd"] eSrcOnly).2.fs
      (tmpName ["t", "a.gd"] "T") = none :=
  ⟨((C6_tmp_cleanup_only_after_rename "T" ["s", "a.gd"] ["t", "a.gd"] eSrcOnly
      { mtimeMs := 5, content := "A" }).1 injNone (fun _ => rfl) (by decide)).1,
   (((C6_tmp_cleanup_only_after_rename "T" ["s", "a.gd"] ["t", "a.gd"] eSrcOnly
      { mtimeMs := 5, content := "A" }).1 injNone (fun _ => rfl) (by decide)).2.2.2).1⟩

/-- Claim C5: `withRetry` with the source's default parameters
(`retries = 3`, `baseDelayMs = 50`) invokes the wrapped action at most 4
times (and at least once); it re-invokes only after a failure whose
classification is in the transient set; each re-invocation is preceded by a
backoff sleep of `50 * 3 ^ attempt` with `attempt` starting at 0 (the
`delaysFor` schedule); and any failure with another classification, or
exhaustion of the attempts, makes it fail with the error wrapping the
operation name and the last underlying error. -/
theorem C5_withRetry_policy
    (outcomes : Nat → Except JsErr Unit) (opName : String)
    (res : Except JsErr Unit) (k : Nat) (fds : List Nat)
    (h : withRetry opName (countingFn outcomes) recordSleep 3 50 (0, []) = (res, (k, fds))) :
    (1 ≤ k ∧ k ≤ 4) ∧
    (∀ i, i + 1 < k → ∃ err, outcomes i = .error err ∧ isTransient err = true) ∧
    (∀ v, outcomes (k - 1) = .ok v → res = .ok v ∧ fds = delaysFor 50 0 (k - 1)) ∧
    (∀ err, outcomes (k - 1) = .error err →
      res = .error (wrapErr opName err) ∧
      (isTransient err = false → fds = delaysFor 50 0 (k - 1)) ∧
      (isTransient err = true → k = 4 ∧ fds = delaysFor 50 0 4)) := by
  have H := retryGo_spec outcomes opName 50 4 0 0 [] { code := none, msg := "undefined" }
    res k fds h
  obtain ⟨⟨hb1, hb2⟩, hpos, htr, hfin⟩ := H
  have hk : 0 < k := hpos (by omega)
  refine ⟨⟨by omega, by omega⟩, ?_, ?_, ?_⟩
  · intro i hi
    exact htr i (by omega) hi
  · intro v hv
    obtain ⟨hres, hfds⟩ := (hfin hk).1 v hv
    refine ⟨hres, ?_⟩
    rw [hfds]
    simp
  · intro err herr
    obtain ⟨hres, hfa, hta⟩ := (hfin hk).2 err herr
    refine ⟨hres, ?_, ?_⟩
    · intro hnt
      rw [hfa hnt]
      simp
    · intro hyt
      obtain ⟨hkeq, hfds⟩ := hta hyt
      refine ⟨by omega, ?_⟩
      rw [hfds]
      simp only [List.nil_append, Nat.sub_zero]
      rw [hkeq]

/-- Witness for C5: two transient `EBUSY` failures then success — three
invocations, backoff sleeps of 50 and 150 milliseconds. -/
theorem C5_withRetry_policy_witness :
    [50, 150] = delaysFor 50 0 (3 - 1) ∧ (1 ≤ 3 ∧ 3 ≤ 4) := by
  have H := C5_withRetry_policy outcomesBusyTwice "copyFile(tmp)" (.ok ()) 3 [50, 150] rfl
  exact ⟨(H.2.2.1 () rfl).2, H.1⟩

/-- Claim C4: the operation queue executes at most one operation at any
instant (a `processQueue` entered while `isProcessingQueue` is set does
nothing — the guard that makes execution single-flight), executes
operations in strict arrival order (the recorded execution order is the
`drainTrace`, whose first `n` entries are exactly the `n` operations that
were already queued, so an operation enqueued during an execution is never
reordered ahead of them), and a failure thrown by one operation is caught
and logged and does not prevent the rest of the queue from being drained
(the queue drains completely whatever the result table says, and the
failure's log line is recorded). -/
theorem C4_queue_single_flight_fifo
    (res : SyncOperation → Except String Unit)
    (arrivals : SyncOperation → List SyncOperation) (fuel : Nat)
    (s : QState (List SyncOperation)) :
    (s.isProcessingQueue = true → processQueue (recHandler res) arrivals fuel s = s) ∧
    (s.isProcessingQueue = false →
      (processQueue (recHandler res) arrivals fuel s).inner =
        s.inner ++ drainTrace arrivals fuel s.syncQueue) ∧
    (s.syncQueue.length ≤ fuel →
      (drainTrace arrivals fuel s.syncQueue).take s.syncQueue.length = s.syncQueue) ∧
    (s.isProcessingQueue = false → s.syncQueue.length ≤ fuel →
      (processQueue (recHandler res) (fun _ => []) fuel s).syncQueue = [] ∧
      (processQueue (recHandler res) (fun _ => []) fuel s).inner = s.inner ++ s.syncQueue) ∧
    (∀ op rest m, s.syncQueue = op :: rest → res op = .error m →
      s.isProcessingQueue = false → 0 < fuel →
      failMsg op m ∈ (processQueue (recHandler res) arrivals fuel s).failLog) := by
  refine ⟨fun h => processQueue_guard _ _ _ _ h,
    fun h => processQueue_inner_trace res arrivals fuel s h, ?_, ?_, ?_⟩
  · intro hl
    have h0 := drainTrace_take arrivals fuel s.syncQueue [] hl
    simpa using h0
  · intro hf hl
    refine ⟨processQueue_drains _ fuel s hf hl, ?_⟩
    rw [processQueue_inner_trace res (fun _ => []) fuel s hf,
      drainTrace_no_arrivals fuel _ hl]
  · intro op rest m hq hr hf hfu
    cases fuel with
    | zero => omega
    | succ fl =>
        simp only [processQueue, hf, Bool.false_eq_true, if_false, hq, recHandler, hr]
        obtain ⟨l, hl2⟩ := processQueue_failLog_mono (recHandler res) arrivals fl
          { syncQueue := rest ++ arrivals op, isProcessingQueue := false,
            inner := s.inner ++ [op], failLog := s.failLog ++ [failMsg op m] }
        rw [hl2]
        simp

/-- Witness for C4: a queue of two operations whose first one fails drains
completely in order and records the failure line. -/
theorem C4_queue_single_flight_fifo_witness :
    (processQueue (recHandler resBoomA) (fun _ => []) 5 qStart).inner =
      qStart.inner ++ qStart.syncQueue ∧
    failMsg opA "boom" ∈ (processQueue (recHandler resBoomA) (fun _ => []) 5 qStart).failLog :=
  ⟨((C4_queue_single_flight_fifo resBoomA (fun _ => []) 5 qStart).2.2.2.1 rfl
      (by decide)).2,
   (C4_queue_single_flight_fifo resBoomA (fun _ => []) 5 qStart).2.2.2.2 opA [opB] "boom"
     rfl rfl rfl (by decide)⟩

/-- Claim C9 (code bug): the overlap check of `start` misses the case where
one directory is the filesystem root.  `/` is an ancestor of `/a` (at the
segment level the root `[]` is a prefix of `["a"]`), yet
`start("/a", "/", ...)` returns true and creates a watcher, because
`"/a".startsWith("/" + path.sep) = "/a".startsWith("//")` is false.  The
claim (and the code's own safety comment) requires `false` and no
watcher. -/
theorem C9_root_ancestor_escapes_overlap_check :
    List.isPrefixOf ([] : FsPath) ["a"] = true ∧
    renderS ([] : FsPath) = "/" ∧ renderS ["a"] = "/a" ∧
    (startService false (renderS ["a"]) (renderS []) [".gd"] statAllDirs).returned = true ∧
    (startService false (renderS ["a"]) (renderS []) [".gd"] statAllDirs).watcherCreated =
      true := by decide

/-- Counterexample to claim C10 as stated: with an existing target root
`/b` but a missing source root `/a`, `start` returns `true` — it does not
reject the configuration synchronously with `false`. -/
theorem C10_counterexample_missing_root_returns_true :
    statOnlyB "/a" = .error { code := some "ENOENT", msg := "ENOENT: no such file or directory" } ∧
    (startService false "/a" "/b" [".gd"] statOnlyB).returned = true := ⟨rfl, rfl⟩

/-- Claim C10 as amended: when `sourceRoot` or `targetRoot` does not exist
or is not a directory (and the synchronous guards pass), `start()` still
returns `true` synchronously; the invalid roots are reported
asynchronously — the `Promise.all(...).then/.catch` continuation creates no
watcher, assigns no configuration state, and emits a log line and a
user-visible error notification.  Only an already-running service, empty
configuration fields and overlapping roots are rejected synchronously with
`false`. -/
theorem C10_invalid_roots_reported_asynchronously
    (src dst : String) (exts : List String) (stat : String → Except JsErr Bool)
    (h1 : (src == "") = false) (h2 : (dst == "") = false) (h3 : exts.isEmpty = false)
    (h4 : (src == dst || isSubPathStr src dst || isSubPathStr dst src) = false)
    (h5 : (∃ er, stat src = .error er) ∨ (∃ er, stat dst = .error er) ∨
      stat src = .ok false ∨ stat dst = .ok false) :
    (startService false src dst exts stat).returned = true ∧
    (startService false src dst exts stat).watcherCreated = false ∧
    (startService false src dst exts stat).stateSet = false ∧
    (startService false src dst exts stat).notifs ≠ [] ∧
    (startService false src dst exts stat).log ≠ [] := by
  unfold startService
  simp only [h1, h2, h3, h4, Bool.or_self, Bool.or_false, Bool.false_eq_true, if_false]
  rcases h5 with ⟨er, he⟩ | ⟨er, he⟩ | he | he
  · rw [he]
    cases ht : stat dst <;> exact ⟨rfl, rfl, rfl, by simp, by simp⟩
  · rw [he]
    cases hs : stat src <;> exact ⟨rfl, rfl, rfl, by simp, by simp⟩
  · rw [he]
    cases ht : stat dst with
    | ok t => simp only [Bool.false_and]; exact ⟨rfl, rfl, rfl, by simp, by simp⟩
    | error er2 => exact ⟨rfl, rfl, rfl, by simp, by simp⟩
  · rw [he]
    cases hs : stat src with
    | ok t => simp only [Bool.and_false]; exact ⟨rfl, rfl, rfl, by simp, by simp⟩
    | error er2 => exact ⟨rfl, rfl, rfl, by simp, by simp⟩

/-- Witness for the amended C10: missing source root `/a`, existing target
root `/b`. -/
theorem C10_invalid_roots_reported_asynchronously_witness :
    (startService false "/a" "/b" [".gd"] statOnlyB).watcherCreated = false ∧
    (startService false "/a" "/b" [".gd"] statOnlyB).notifs ≠ [] := by
  have H := C10_invalid_roots_reported_asynchronously "/a" "/b" [".gd"] statOnlyB
    (by decide) (by decide) (by decide) (by decide)
    (Or.inl ⟨{ code := some "ENOENT", msg := "ENOENT: no such file or directory" }, rfl⟩)
  exact ⟨H.2.1, H.2.2.2.1⟩

end GodotSync
